import Mathlib

/-
Formal model of the easy-file-maintenance analysis engine.

The JavaScript sources are shallowly embedded: each definition below mirrors
one function of the repository (file and line references are given in the
doc comments).  Machine-level concerns are modelled as follows:
* JS numbers holding timestamps are `Int` (milliseconds since the Unix epoch);
  sizes and counts are `Nat`.
* JS `Map` objects and plain objects used as dictionaries are insertion-ordered
  association lists `List (String × α)`.
* JS `Set` objects are `List` with `contains`; `undefined` path values are
  `Option.none`.
* Paths are POSIX strings; the embedded `path` helpers assume the absolute,
  already-normalized paths (no `.`/`..` segments) that the tool works with.
* External libraries (EXIF parser, MD5) are abstracted: the EXIF tag a file
  would yield is a field of the entry, and MD5 is a function parameter.
-/

namespace FileMaint

/-- Character-level split on '/' with the semantics of JS `String.split('/')`:
every separator splits, empty pieces are kept. -/
def splitSlash : List Char → List (List Char)
  | [] => [[]]
  | c :: rest =>
    match splitSlash rest with
    | [] => [[]]
    | seg :: segs => if c = '/' then [] :: seg :: segs else (c :: seg) :: segs

/-- Join character segments with '/' (JS `Array.join('/')`). -/
def joinSlash : List (List Char) → List Char
  | [] => []
  | [seg] => seg
  | seg :: rest => seg ++ '/' :: joinSlash rest

/-- Rebuild a cleaned absolute path from a character list: split on '/',
drop the empty segments created by duplicate or trailing separators, and
join back under a leading '/'.  This is how Node normalizes the absolute,
dot-free paths this tool manipulates; trailing separators are not
reproduced (no embedded caller observes one: every use is followed by a
further join or a normalization). -/
def cleanAbs (l : List Char) : List Char :=
  let segs := (splitSlash l).filter (· ≠ [])
  if segs = [] then ['/'] else '/' :: joinSlash segs

/-- Model of Node `path.resolve` on an absolute path without `.`/`..`
segments: duplicate separators collapse and the trailing separator is
removed (the root path "/" stays "/"). -/
def pathResolve (p : String) : String :=
  String.mk (cleanAbs p.toList)

/-- Model of Node `path.normalize(path.resolve(p)).replace(/\/+$/, '')` as in
`normalizePath` (src/src/utils/helpers.mjs, lines 272-275). -/
def normalizePath (p : String) : String :=
  pathResolve p

/-- Model of Node `path.join(a, b)` for absolute dot-free `a`: concatenate
with a separator and normalize. -/
def pathJoin (a b : String) : String :=
  String.mk (cleanAbs (a.toList ++ '/' :: b.toList))

/-- Model of Node `path.dirname` for absolute paths: everything before the
last '/', or "/" when the path is a top-level entry. -/
def dirname (p : String) : String :=
  let segs := splitSlash p.toList
  match segs with
  | [] => p
  | [_] => p
  | _ => match joinSlash segs.dropLast with
         | [] => "/"
         | l => String.mk l

/-- Model of Node `path.basename`: the part after the last '/'. -/
def basename (p : String) : String :=
  match (splitSlash p.toList).getLast? with
  | some seg => String.mk seg
  | none => p

/-- Stat snapshot carried by every scan entry.  `mtime` is optional to model
an absent field; Date-valued timestamps are their millisecond values. -/
structure Stats where
  size : Nat
  nlink : Nat
  ctimeMs : Int
  birthtimeMs : Int
  mtime : Option Int
  deriving Repr, DecidableEq

/-- Scan-model entry: the union of the dynamic fields the scanner revisions
put on file and directory objects (src/src/modules/ownershipChecker.mjs,
lines 205-216 and 255-285; src/src/modules/scanner.mjs, lines 16-31).
`exifDateTimeOriginal` abstracts the external EXIF parser: it is the
`DateTimeOriginal` value (seconds) the parse of the file's bytes would
yield, `none` when parsing fails or the tag is absent. -/
structure Entry where
  path : String
  dir : String
  name : String
  baseName : String
  extension : String
  depth : Nat
  size : Nat
  isFile : Bool
  isDirectory : Bool
  delete : Bool
  ignored : Bool
  intrinsicSize : Nat
  totalSize : Nat
  fileCount : Nat
  dirCount : Nat
  exifDateTimeOriginal : Option Int
  stats : Stats
  deriving Repr, DecidableEq

/-- Timestamp used by `determineOriginal`: `Math.min(stats.ctimeMs,
stats.birthtimeMs)` (src/unnamed/part_013, lines 44-53). -/
def fileTimestamp (f : Entry) : Int :=
  min f.stats.ctimeMs f.stats.birthtimeMs

/-- Comparison performed inside the `reduce` of `determineOriginal`
(src/unnamed/part_013, lines 55-57): strictly older timestamp, or equal
timestamp and strictly shorter name. -/
def olderThan (file oldest : Entry) : Bool :=
  decide (fileTimestamp file < fileTimestamp oldest ∨
    (fileTimestamp file = fileTimestamp oldest ∧
      file.name.length < oldest.name.length))

/-- Reducer body of `determineOriginal` (src/unnamed/part_013, lines 44-60):
keep the accumulator unless the next file is strictly older (or equally old
with a strictly shorter name). -/
def dupStep (oldest file : Entry) : Entry :=
  if olderThan file oldest then file else oldest

/-- Embedding of `determineOriginal` (src/unnamed/part_013, lines 43-61 and
src/src/modules/duplicateChecker.mjs, lines 42-60): `files.reduce(step,
files[0])`.  JS `reduce` with an initial value folds over every element,
including `files[0]` itself; an empty array yields `undefined`, modelled as
`none`. -/
def determineOriginal : List Entry → Option Entry
  | [] => none
  | x :: xs => some ((x :: xs).foldl dupStep x)

/-- JS `Array.findIndex` of the first base segment differing from the target
segment at the same index (`undefined` past the end of the target differs
from any string): `baseSegments.findIndex((seg, i) => seg !==
targetSegments[i])`, -1 when no index differs. -/
def findDivergence (baseSegs targetSegs : List (List Char)) : Int :=
  go baseSegs targetSegs 0
where
  go : List (List Char) → List (List Char) → Nat → Int
    | [], _, _ => -1
    | _ :: _, [], i => (i : Int)
    | b :: bs, t :: ts, i => if b = t then go bs ts (i + 1) else (i : Int)

/-- JS `Array.slice(i)` including the negative-index case
(`slice(-1)` keeps only the last element). -/
def jsSlice {α : Type} (l : List α) (i : Int) : List α :=
  if i < 0 then l.drop (l.length - min l.length (-i).toNat)
  else l.drop i.toNat

/-- Embedding of `rebasePath` (src/src/utils/helpers.mjs, lines 347-356):
resolve and split both paths, take `targetSegments.slice(idx)` where `idx`
is the first diverging index (`-1`, hence the last segment only, when the
base is a prefix of the target), and join onto the base. -/
def rebasePath (basePath targetPath : String) : String :=
  let baseSegments := splitSlash (pathResolve basePath).toList
  let targetSegments := splitSlash (pathResolve targetPath).toList
  let uniquePart := joinSlash (jsSlice targetSegments
    (findDivergence baseSegments targetSegments))
  pathJoin basePath (String.mk uniquePart)

/-- Buffer produced inside `hashFileChunk` (src/src/utils/helpers.mjs, lines
395-404): `Buffer.alloc(chunkSize)` is zero-initialized, and
`read(buffer, 0, chunkSize, 0)` overwrites its first
`min(fileSize, chunkSize)` bytes with the file content. -/
def chunkBuffer (content : List Nat) (chunkSize : Nat) : List Nat :=
  content.take chunkSize ++
    List.replicate (chunkSize - (content.take chunkSize).length) 0

/-- Embedding of `hashFileChunk` (src/src/utils/helpers.mjs, lines 395-404):
the MD5 digest of the whole `chunkSize`-byte buffer.  The external MD5
implementation is abstracted as the parameter `md5`. -/
def hashFileChunk (md5 : List Nat → String) (content : List Nat)
    (chunkSize : Nat := 131072) : String :=
  md5 (chunkBuffer content chunkSize)

/-- Total preorder underlying `olderThan`: `a` is at most as old-and-short
as `b` (the reflexive closure of the strict comparison of the reducer). -/
def keyLe (a b : Entry) : Prop :=
  fileTimestamp a < fileTimestamp b ∨
    (fileTimestamp a = fileTimestamp b ∧ a.name.length ≤ b.name.length)

instance (a b : Entry) : Decidable (keyLe a b) := by
  unfold keyLe; infer_instance

/-- Well-formed path segment: nonempty and free of separators. -/
def isSeg (s : List Char) : Prop := s ≠ [] ∧ '/' ∉ s

instance (s : List Char) : Decidable (isSeg s) := by
  unfold isSeg; infer_instance

/-- Absolute path built from well-formed segments. -/
def mkAbs (segs : List (List Char)) : String :=
  String.mk ('/' :: joinSlash segs)

/-- Entry template used to build the concrete scan entries of the test
scenarios; individual entries override the relevant fields. -/
def baseEntry : Entry where
  path := ""
  dir := ""
  name := ""
  baseName := ""
  extension := ""
  depth := 0
  size := 0
  isFile := true
  isDirectory := false
  delete := false
  ignored := false
  intrinsicSize := 0
  totalSize := 0
  fileCount := 0
  dirCount := 0
  exifDateTimeOriginal := none
  stats := { size := 0, nlink := 1, ctimeMs := 0, birthtimeMs := 0, mtime := none }

/-- File entry with timestamp 1000 and a 4-character name, path "/r/bb.j". -/
def e3a : Entry :=
  { baseEntry with
    path := "/r/bb.j", dir := "/r", name := "bb.j", baseName := "bb",
    extension := "j", depth := 1, size := 5,
    stats := { size := 5, nlink := 1, ctimeMs := 1000, birthtimeMs := 1000,
               mtime := none } }

/-- File entry tied with `e3a` on timestamp and name length but with the
lexicographically smaller path "/r/aa.j". -/
def e3b : Entry :=
  { baseEntry with
    path := "/r/aa.j", dir := "/r", name := "aa.j", baseName := "aa",
    extension := "j", depth := 1, size := 5,
    stats := { size := 5, nlink := 1, ctimeMs := 1000, birthtimeMs := 1000,
               mtime := none } }

/-- One-byte file content. -/
def c10a : List Nat := [1]

/-- Three-byte file content equal to `c10a` followed by trailing zero bytes. -/
def c10b : List Nat := [1, 0, 0]

/-- Cleanup operation: the accepted scan entry spread together with its
recycle-bin destination (the cosmetic `reason` string, which interpolates
human-readable byte counts, is not modelled). -/
structure CleanOp where
  item : Entry
  move_to : String
  deriving Repr, DecidableEq

/-- Loop body of `processItems` in `getCleanUpItems`
(src/src/modules/getCleanUpItems.mjs, lines 92-132): skip (but record) items
whose immediate parent is already marked for removal or that are the scan
root; accept directories whose `totalSize` is at or below the threshold and
files marked for deletion.  The state is the `removalPaths` set paired with
the accepted operations.  The per-item bodies contain no await before
returning, so the `p-limit` tasks run to completion in creation order and
the loop is sequential. -/
def cleanStep (scanDir binPath : String) (emptyThreshold : Nat)
    (st : List String × List CleanOp) (item : Entry) :
    List String × List CleanOp :=
  let removalPaths := st.1
  if removalPaths.contains item.dir || (item.isDirectory && item.path == scanDir)
  then (item.path :: removalPaths, st.2)
  else
    let empty := item.isDirectory && decide (item.totalSize ≤ emptyThreshold)
    if empty || item.delete then
      (item.path :: removalPaths, st.2 ++ [⟨item, rebasePath binPath item.path⟩])
    else st

/-- Result record of `getCleanUpItems`. -/
structure CleanResult where
  directories : List CleanOp
  files : List CleanOp
  size : Nat
  deriving Repr, DecidableEq

/-- Embedding of `getCleanUpItems` (src/src/modules/getCleanUpItems.mjs,
lines 86-150): process the files first, then the directories, sharing the
`removalPaths` set; `size` sums the accepted files' stat sizes. -/
def getCleanUpItems (files directories : List Entry) (scanDir binPath : String)
    (emptyThreshold : Nat := 0) : CleanResult :=
  let st1 := files.foldl (cleanStep scanDir binPath emptyThreshold) ([], [])
  let returnFiles := st1.2
  let st2 := directories.foldl (cleanStep scanDir binPath emptyThreshold)
    (st1.1, [])
  { directories := st2.2, files := returnFiles,
    size := returnFiles.foldl (fun s op => s + op.item.stats.size) 0 }

/-- Embedding of `pathSplitter` (src/src/utils/helpers.mjs, lines 563-566):
partial joins of all proper prefixes of the '/'-separated parts. -/
def pathSplitter (filePath : String) : List String :=
  let parts := splitSlash filePath.toList
  (List.range (parts.length - 1)).map (fun i =>
    String.mk (joinSlash (parts.take (i + 1))))

/-- Model of Node `path.relative(base, p)` for the one call site, where `p`
always lies strictly under `base`. -/
def relativeUnder (base p : String) : String :=
  let b := base.toList ++ ['/']
  if b.isPrefixOf p.toList then String.mk (p.toList.drop b.length) else p

/-- Insert-or-replace for an insertion-ordered association list, with JS
`Map.set` semantics: an existing key keeps its position. -/
def setEntry (m : List (String × Entry)) (k : String) (v : Entry) :
    List (String × Entry) :=
  if m.any (·.1 == k) then m.map (fun kv => if kv.1 == k then (k, v) else kv)
  else m ++ [(k, v)]

/-- Update the value stored at a key of an association list in place. -/
def updateEntry (m : List (String × Entry)) (k : String) (f : Entry → Entry) :
    List (String × Entry) :=
  m.map (fun kv => if kv.1 == k then (kv.1, f kv.2) else kv)

/-- Embedding of `updateDirectoryStats` (src/src/utils/helpers.mjs, lines
582-603): for every proper ancestor of `fullPath` below the scan root
`dir`, create the entry if absent (a bare counters object, modelled by
`baseEntry`) and add the entry's stat size to `totalSize` (zero when
ignored), bump `fileCount` for EVERY entry (files and directories alike),
add to `intrinsicSize` when the ancestor is the immediate parent, and bump
`dirCount` for directory entries. -/
def updateDirectoryStats (results : List (String × Entry))
    (dir fullPath : String) (statSize : Nat) (isDir ignored : Bool) :
    List (String × Entry) :=
  (pathSplitter (relativeUnder dir fullPath)).foldl (fun m subPath =>
    let subDir := pathJoin dir subPath
    let m := if m.any (·.1 == subDir) then m else m ++ [(subDir, baseEntry)]
    updateEntry m subDir (fun s =>
      { s with
        totalSize := s.totalSize + (if ignored then 0 else statSize),
        fileCount := s.fileCount + 1,
        intrinsicSize := s.intrinsicSize +
          (if dirname fullPath == subDir then
            (if ignored then 0 else statSize) else 0),
        dirCount := s.dirCount + (if isDir then 1 else 0) })) results

/-- Scan model: insertion-ordered maps of directories and files. -/
structure Scan where
  directories : List (String × Entry)
  files : List (String × Entry)
  deriving Repr, DecidableEq

/-- Embedding of the per-item bookkeeping of the scanner's `getFiles`
(src/src/modules/ownershipChecker.mjs, lines 218-298): the input is the
list of non-skipped entries in BFS order; a directory entry is stored
preserving any counters a stub already accumulated, a file entry is stored
as-is, and `updateDirectoryStats` then updates every proper ancestor's
aggregates.  The scan root itself is never an entry. -/
def scanFold (root : String) (items : List Entry) : Scan :=
  items.foldl (fun sc item =>
    let sc :=
      if item.isDirectory then
        let old := sc.directories.lookup item.path
        let stored : Entry :=
          { item with
            fileCount := (old.map (·.fileCount)).getD 0,
            dirCount := (old.map (·.dirCount)).getD 0,
            intrinsicSize := (old.map (·.intrinsicSize)).getD 0,
            totalSize := (old.map (·.totalSize)).getD 0 }
        { sc with directories := setEntry sc.directories item.path stored }
      else { sc with files := setEntry sc.files item.path item }
    let newDirs := updateDirectoryStats sc.directories root
      item.path item.stats.size item.isDirectory item.ignored
    { sc with directories := newDirs })
    ⟨[], []⟩

/-- Orphan operation: the file entry spread with its recycle destination. -/
structure OrphOp where
  item : Entry
  move_to : String
  deriving Repr, DecidableEq

/-- Embedding of `getOrphanItems` (src/src/modules/orphanDetector.mjs, lines
8-44): a file is emitted exactly when the directories map has its parent
with `fileCount === 1`; a missing parent (`get` returning undefined) never
matches.  The returned `size` is the constant 0 of the source and is not
modelled. -/
def orphanCheck (scan : Scan) (binPath : String) (f : Entry) : Option OrphOp :=
  match scan.directories.lookup f.dir with
  | some d => if d.fileCount == 1 then some ⟨f, rebasePath binPath f.path⟩
              else none
  | none => none

/-- Orphan detection applied to every file of the scan, in map order. -/
def getOrphanItems (scan : Scan) (binPath : String) : List OrphOp :=
  (scan.files.map Prod.snd).filterMap (orphanCheck scan binPath)

/-- Analyzer output item as consumed by the plan-building code of app.mjs;
fields other than `path`, `move_to` and `size` are not read by the
plan-building region. -/
structure AnItem where
  path : String
  move_to : String
  size : Nat
  deriving Repr, DecidableEq

/-- Duplicate operation as pushed by app.mjs lines 59-65; `path` is an
`Option` because `Object.values(duplicates).flat()` also yields the numeric
`size` member of the result object, whose `path` is undefined. -/
structure DupPush where
  path : Option String
  move_to : Option String
  deriving Repr, DecidableEq

/-- Operations record built by app.mjs (lines 39-47). -/
structure PlanOps where
  preCleanup : List AnItem
  duplicate : List DupPush
  orphan : List AnItem
  permissions : List AnItem
  ownership : List AnItem
  reorganize : List AnItem
  postCleanup : List AnItem
  deriving Repr, DecidableEq

/-- Empty operations record. -/
def emptyOps : PlanOps := ⟨[], [], [], [], [], [], []⟩

/-- Duplicates block of app.mjs (lines 52-67): `Object.values(duplicates)`
is `[directories, files, size]` and `.flat()` therefore iterates the
directory items, the file items, and the bare size number (modelled as
`none`); every iterated element's `path` joins `destructivePaths` and a
duplicate operation is pushed unconditionally. -/
def dupStage (actions : List String) (dupDirs dupFiles : List AnItem)
    (st : PlanOps × List (Option String)) : PlanOps × List (Option String) :=
  if actions.contains "duplicates" then
    let flat : List (Option AnItem) := (dupDirs ++ dupFiles).map some ++ [none]
    let newDups : List DupPush :=
      flat.map (fun x => ⟨x.map (·.path), x.map (·.move_to)⟩)
    let newPaths : List (Option String) := flat.map (fun x => x.map (·.path))
    ({ st.1 with duplicate := st.1.duplicate ++ newDups }, st.2 ++ newPaths)
  else st

/-- Orphans block of app.mjs (lines 69-81): every orphan's path joins
`destructivePaths` and an orphan operation is pushed unconditionally. -/
def orphanStage (actions : List String) (orphans : List AnItem)
    (st : PlanOps × List (Option String)) : PlanOps × List (Option String) :=
  if actions.contains "orphans" then
    ({ st.1 with orphan := st.1.orphan ++ orphans },
      st.2 ++ orphans.map (fun i => some i.path))
  else st

/-- Pre-cleanup block of app.mjs (lines 83-102): files first, then
directories; paths join `destructivePaths` and operations are pushed
unconditionally. -/
def precleanStage (actions : List String)
    (precleanFiles precleanDirs : List AnItem)
    (st : PlanOps × List (Option String)) : PlanOps × List (Option String) :=
  if actions.contains "pre-cleanup" then
    ({ st.1 with preCleanup := st.1.preCleanup ++
        (precleanFiles ++ precleanDirs) },
      st.2 ++ (precleanFiles ++ precleanDirs).map (fun i => some i.path))
  else st

/-- Reorganize block of app.mjs (lines 106-119): items whose path is in
`destructivePaths` are skipped; the set is not extended. -/
def reorgStage (actions : List String) (reorgs : List AnItem)
    (st : PlanOps × List (Option String)) : PlanOps × List (Option String) :=
  if actions.contains "reorganize" then
    ({ st.1 with reorganize := st.1.reorganize ++
        reorgs.filter (fun i => decide (some i.path ∉ st.2)) }, st.2)
  else st

/-- Permissions block of app.mjs (lines 121-139), gated on both permission
config values; destructive paths are filtered out. -/
def permsStage (actions : List String) (perms : List AnItem)
    (hasFilePerm hasDirPerm : Bool)
    (st : PlanOps × List (Option String)) : PlanOps × List (Option String) :=
  if actions.contains "permissions" && hasFilePerm && hasDirPerm then
    ({ st.1 with permissions := st.1.permissions ++
        perms.filter (fun i => decide (some i.path ∉ st.2)) }, st.2)
  else st

/-- Ownership block of app.mjs (lines 141-162), gated on both owner config
values; destructive paths are filtered out. -/
def ownStage (actions : List String) (owns : List AnItem)
    (hasOwnerUser hasOwnerGroup : Bool)
    (st : PlanOps × List (Option String)) : PlanOps × List (Option String) :=
  if actions.contains "ownership" && hasOwnerUser && hasOwnerGroup then
    ({ st.1 with ownership := st.1.ownership ++
        owns.filter (fun i => decide (some i.path ∉ st.2)) }, st.2)
  else st

/-- Embedding of the plan-building region of app.mjs (lines 48-162): the
operations record and the `destructivePaths` set threaded through the
destructive blocks (duplicates, orphans, pre-cleanup) and then the
non-destructive blocks (reorganize, permissions, ownership), in source
order.  `postCleanup` lies outside the region and stays empty. -/
def buildOperations (actions : List String)
    (dupDirs dupFiles orphans precleanFiles precleanDirs reorgs perms owns :
      List AnItem)
    (hasFilePerm hasDirPerm hasOwnerUser hasOwnerGroup : Bool) :
    PlanOps × List (Option String) :=
  ownStage actions owns hasOwnerUser hasOwnerGroup
    (permsStage actions perms hasFilePerm hasDirPerm
      (reorgStage actions reorgs
        (precleanStage actions precleanFiles precleanDirs
          (orphanStage actions orphans
            (dupStage actions dupDirs dupFiles (emptyOps, []))))))

/-- File entry for the C6 scenario: /r/keep.txt of size 10. -/
def keepTxt : Entry :=
  { baseEntry with
    path := "/r/keep.txt", dir := "/r", name := "keep.txt",
    baseName := "keep", extension := "txt", size := 10,
    stats := { size := 10, nlink := 1, ctimeMs := 0, birthtimeMs := 0,
               mtime := none } }

/-- Directory /r/a of the C6 scenario (aggregates over descendants b, c, d). -/
def dirA : Entry :=
  { baseEntry with
    path := "/r/a", dir := "/r", name := "a", baseName := "a",
    isFile := false, isDirectory := true,
    totalSize := 0, fileCount := 3, dirCount := 3 }

/-- Empty directory /r/a/b of the C6 scenario. -/
def dirAB : Entry :=
  { baseEntry with
    path := "/r/a/b", dir := "/r/a", name := "b", baseName := "b",
    depth := 1, isFile := false, isDirectory := true }

/-- Directory /r/a/c of the C6 scenario (contains only the empty d). -/
def dirAC : Entry :=
  { baseEntry with
    path := "/r/a/c", dir := "/r/a", name := "c", baseName := "c",
    depth := 1, isFile := false, isDirectory := true,
    fileCount := 1, dirCount := 1 }

/-- Empty directory /r/a/c/d of the C6 scenario. -/
def dirACD : Entry :=
  { baseEntry with
    path := "/r/a/c/d", dir := "/r/a/c", name := "d", baseName := "d",
    depth := 2, isFile := false, isDirectory := true }

/-- Directory /r/d of the C7 counterexample tree. -/
def dir7d : Entry :=
  { baseEntry with
    path := "/r/d", dir := "/r", name := "d", baseName := "d",
    isFile := false, isDirectory := true }

/-- File /r/d/f.txt, the only file directly inside /r/d. -/
def file7f : Entry :=
  { baseEntry with
    path := "/r/d/f.txt", dir := "/r/d", name := "f.txt", baseName := "f",
    extension := "txt", depth := 1, size := 7,
    stats := { size := 7, nlink := 1, ctimeMs := 0, birthtimeMs := 0,
               mtime := none } }

/-- Empty subdirectory /r/d/sub of the C7 counterexample tree. -/
def dir7sub : Entry :=
  { baseEntry with
    path := "/r/d/sub", dir := "/r/d", name := "sub", baseName := "sub",
    depth := 1, isFile := false, isDirectory := true }

/-- Directory /r/only of the C7 witness scenario. -/
def dir7only : Entry :=
  { baseEntry with
    path := "/r/only", dir := "/r", name := "only", baseName := "only",
    isFile := false, isDirectory := true }

/-- File /r/only/solo.xml, the single entry of /r/only. -/
def file7solo : Entry :=
  { baseEntry with
    path := "/r/only/solo.xml", dir := "/r/only", name := "solo.xml",
    baseName := "solo", extension := "xml", depth := 1, size := 3,
    stats := { size := 3, nlink := 1, ctimeMs := 0, birthtimeMs := 0,
               mtime := none } }

/-- Duplicate-and-orphan item of the C1 counterexample: a lone file whose
content duplicates a file elsewhere. -/
def soloDupe : AnItem := ⟨"/r/x/solo.jpg", "/r/#recycle/x/solo.jpg", 5⟩

/-- Embedding of `filterOutSingleGroups` (src/unnamed/part_013, lines
140-147): keep only groups with more than one member. -/
def filterOutSingleGroups (groupedItems : List (String × List Entry)) :
    List (String × List Entry) :=
  groupedItems.filter (fun kv => kv.2.length > 1)

/-- Shape key of a directory (src/unnamed/part_013, line 151):
`[intrinsicSize, totalSize, fileCount, stats.nlink, stats.size].join('_')`. -/
def shapeKey (dir : Entry) : String :=
  String.intercalate "_" [toString dir.intrinsicSize, toString dir.totalSize,
    toString dir.fileCount, toString dir.stats.nlink, toString dir.stats.size]

/-- Directory grouping of `groupItems` (src/unnamed/part_013, lines
150-154): create the key's group when absent, and push the directory only
when `dir.size > 0`. -/
def groupDirectories (dirs : List Entry) : List (String × List Entry) :=
  dirs.foldl (fun acc dir =>
    let key := shapeKey dir
    let acc := if acc.any (·.1 == key) then acc else acc ++ [(key, [])]
    if dir.size > 0 then
      acc.map (fun kv => if kv.1 == key then (kv.1, kv.2 ++ [dir]) else kv)
    else acc) []

/-- JS `Array.indexOf`: first index of the element, -1 when absent. -/
def jsIndexOf (l : List String) (h : String) : Int :=
  go l 0
where
  go : List String → Nat → Int
    | [], _ => -1
    | x :: xs, i => if x = h then (i : Int) else go xs (i + 1)

/-- JS `Array.lastIndexOf`: last index of the element, -1 when absent. -/
def jsLastIndexOf (l : List String) (h : String) : Int :=
  go l 0 (-1)
where
  go : List String → Nat → Int → Int
    | [], _, best => best
    | x :: xs, i, best => go xs (i + 1) (if x = h then (i : Int) else best)

/-- The `uniqueHashes` set of `processGroupedItems` (src/unnamed/part_013,
lines 93-95): hashes whose index is both a repeat (`indexOf !== idx`) and
the last occurrence (`lastIndexOf === idx`), i.e. one representative per
hash occurring at least twice. -/
def uniqueHashesOf (hashes : List String) : List String :=
  (hashes.enum.filter (fun p =>
    decide (jsIndexOf hashes p.2 ≠ (p.1 : Int)) &&
    decide (jsLastIndexOf hashes p.2 = (p.1 : Int)))).map Prod.snd

/-- Verified duplicate-directory record: the group member spread with its
(misassigned, see below) hash and the original's path. -/
structure DupDirOut where
  item : Entry
  hash : String
  duplicate_of : String
  deriving Repr, DecidableEq

/-- Embedding of `processGroupedItems` (src/unnamed/part_013, lines 75-112)
as used for directories: for each group with more than one member, hash
every member (the I/O-performing `calculateDirectoryHash` is abstracted as
the `hashFunction` parameter, exactly the role it plays in the source),
keep the members whose hash occurs at least twice and that are not the
original, and annotate them.  The `.map((item, idx) => ...)` reuses `idx`
as an index into `hashes` although it now indexes the FILTERED array, which
the embedding reproduces. -/
def processGroupedItems (hashFunction : Entry → String)
    (groupedItems : List (String × List Entry)) :
    List (String × List DupDirOut) :=
  groupedItems.foldl (fun dups kv =>
    if kv.2.length > 1 then
      match determineOriginal kv.2 with
      | none => dups
      | some originalItem =>
        let hashes := kv.2.map hashFunction
        let uniqueHashes := uniqueHashesOf hashes
        let filtered := kv.2.enum.filter (fun p =>
          uniqueHashes.contains (hashes.getD p.1 "") &&
          decide (p.2 ≠ originalItem))
        let mapped := filtered.enum.map (fun q =>
          (⟨q.2.2, hashes.getD q.1 "", originalItem.path⟩ : DupDirOut))
        dups ++ [(kv.1, mapped)]
    else dups) []

/-- Directory stage of `groupItems` and the directory component of its
return value (src/unnamed/part_013, lines 149-166 and 285-291): the
verified `duplicateDirs` and the `duplicateDirPaths` set are computed, but
the returned `directories` field is `filterOutSingleGroups` of the RAW
shape groups, not the verified duplicates.  Returns (returned directories,
duplicateDirs, duplicateDirPaths). -/
def groupItemsDirectories (dirs : List Entry) (hashFunction : Entry → String) :
    (List (String × List Entry)) × (List (String × List DupDirOut)) ×
      List String :=
  let grouped := groupDirectories dirs
  let duplicateDirs := processGroupedItems hashFunction
    (filterOutSingleGroups grouped)
  let duplicateDirPaths := ((duplicateDirs.map Prod.snd).flatten).map
    (·.item.path)
  (filterOutSingleGroups grouped, duplicateDirs, duplicateDirPaths)

/-- Directory /r/x of the C2 input: shape key (1, 1, 1, 2, 4096), the older
member (timestamp 100) and hence the group's original. -/
def dir2x : Entry :=
  { baseEntry with
    path := "/r/x", dir := "/r", name := "x", baseName := "x",
    isFile := false, isDirectory := true, size := 4096,
    intrinsicSize := 1, totalSize := 1, fileCount := 1,
    stats := { size := 4096, nlink := 2, ctimeMs := 100, birthtimeMs := 100,
               mtime := none } }

/-- Directory /r/y of the C2 input: same shape key as /r/x but a different
recursive hash and a later timestamp. -/
def dir2y : Entry :=
  { baseEntry with
    path := "/r/y", dir := "/r", name := "y", baseName := "y",
    isFile := false, isDirectory := true, size := 4096,
    intrinsicSize := 1, totalSize := 1, fileCount := 1,
    stats := { size := 4096, nlink := 2, ctimeMs := 200, birthtimeMs := 200,
               mtime := none } }

/-- Days since the Unix epoch of a calendar date (proleptic Gregorian),
the standard civil-from-days algorithm with floor division. -/
def daysFromCivil (y0 m d : Int) : Int :=
  let y := y0 - (if m ≤ 2 then 1 else 0)
  let era := Int.fdiv y 400
  let yoe := y - era * 400
  let mp := if m > 2 then m - 3 else m + 9
  let doy := Int.fdiv (153 * mp + 2) 5 + d - 1
  let doe := yoe * 365 + Int.fdiv yoe 4 - Int.fdiv yoe 100 + doy
  era * 146097 + doe - 719468

/-- Calendar date (year, month, day) of a day count since the Unix epoch. -/
def civilFromDays (z0 : Int) : Int × Int × Int :=
  let z := z0 + 719468
  let era := Int.fdiv z 146097
  let doe := z - era * 146097
  let yoe := Int.fdiv
    (doe - Int.fdiv doe 1460 + Int.fdiv doe 36524 - Int.fdiv doe 146096) 365
  let y := yoe + era * 400
  let doy := doe - (365 * yoe + Int.fdiv yoe 4 - Int.fdiv yoe 100)
  let mp := Int.fdiv (5 * doy + 2) 153
  let d := doy - Int.fdiv (153 * mp + 2) 5 + 1
  let m := mp + (if mp < 10 then 3 else -9)
  (y + (if m ≤ 2 then 1 else 0), m, d)

/-- Milliseconds since the epoch of a UTC calendar date at midnight. -/
def msOfYMD (y m d : Int) : Int := 86400000 * daysFromCivil y m d

/-- JS `Date.prototype.getUTCFullYear` on a millisecond value. -/
def getUTCFullYear (ms : Int) : Int :=
  (civilFromDays (Int.fdiv ms 86400000)).1

/-- JS `Date.prototype.getUTCMonth` (zero-based) on a millisecond value. -/
def getUTCMonth (ms : Int) : Int :=
  (civilFromDays (Int.fdiv ms 86400000)).2.1 - 1

/-- JS `Date.prototype.getUTCDate` on a millisecond value. -/
def getUTCDate (ms : Int) : Int :=
  (civilFromDays (Int.fdiv ms 86400000)).2.2

/-- Gregorian leap-year test. -/
def isLeap (y : Int) : Bool :=
  y % 4 == 0 && (y % 100 != 0 || y % 400 == 0)

/-- Number of days of a month (1-12). -/
def daysInMonth (y m : Int) : Int :=
  if m = 2 then (if isLeap y then 29 else 28)
  else if m = 4 ∨ m = 6 ∨ m = 9 ∨ m = 11 then 30
  else 31

/-- Model of `new Date("YYYY-MM-DD")`: ISO date-only strings parse as UTC
midnight and out-of-range components give an invalid date (`none`). -/
def jsDateYMD (y m d : Int) : Option Int :=
  if 1 ≤ m ∧ m ≤ 12 ∧ 1 ≤ d ∧ d ≤ daysInMonth y m then some (msOfYMD y m d)
  else none

/-- Default `dateThreshold`: `new Date('1995-01-01')`. -/
def defaultDateThreshold : Int := msOfYMD 1995 1 1

/-- Decimal digit test, the `\d` class. -/
def isDigitChar (c : Char) : Bool := '0' ≤ c && c ≤ '9'

/-- JS numeric coercion of a digit string. -/
def digitsToNat (s : List Char) : Nat :=
  s.foldl (fun a c => a * 10 + (c.toNat - '0'.toNat)) 0

/-- Separator class `[-\s]` of the date patterns (ASCII whitespace). -/
def isSepChar (c : Char) : Bool :=
  c = '-' || c = ' ' || c = '\t' || c = '\n' || c = '\r'

/-- Take exactly `n` leading digits, returning them and the rest. -/
def takeDigits : Nat → List Char → Option (List Char × List Char)
  | 0, l => some ([], l)
  | _ + 1, [] => none
  | n + 1, c :: rest =>
    if isDigitChar c then
      (takeDigits n rest).map (fun p => (c :: p.1, p.2))
    else none

/-- Greedy optional separator `([-\s]?)`.  The separator class is disjoint
from `\d`, so the greedy choice never needs backtracking against the digit
groups that follow. -/
def takeSep : List Char → Option Char × List Char
  | [] => (none, [])
  | c :: rest => if isSepChar c then (some c, rest) else (none, c :: rest)

/-- Match data for one date-pattern match: the three digit groups of the
destructuring `[fullMatch, part1, , part2, , part3]`, the full matched
text, and the match length. -/
structure YMDMatch where
  g1 : List Char
  g3 : Option (List Char)
  g5 : Option (List Char)
  full : List Char
  len : Nat
  deriving Repr, DecidableEq

/-- Attempt `(\d{4})([-\s]?)(\d{2})([-\s]?)(\d{2})` at the head. -/
def matchP1At (l : List Char) : Option YMDMatch :=
  match takeDigits 4 l with
  | none => none
  | some (d1, r1) =>
    let (s1, r2) := takeSep r1
    match takeDigits 2 r2 with
    | none => none
    | some (d2, r3) =>
      let (s2, r4) := takeSep r3
      match takeDigits 2 r4 with
      | none => none
      | some (d3, _) =>
        some ⟨d1, some d2, some d3,
          d1 ++ s1.toList ++ d2 ++ s2.toList ++ d3,
          4 + s1.toList.length + 2 + s2.toList.length + 2⟩

/-- Attempt `(\d{2})([-\s]?)(\d{2})([-\s]?)(\d{4})` at the head. -/
def matchP2At (l : List Char) : Option YMDMatch :=
  match takeDigits 2 l with
  | none => none
  | some (d1, r1) =>
    let (s1, r2) := takeSep r1
    match takeDigits 2 r2 with
    | none => none
    | some (d2, r3) =>
      let (s2, r4) := takeSep r3
      match takeDigits 4 r4 with
      | none => none
      | some (d3, _) =>
        some ⟨d1, some d2, some d3,
          d1 ++ s1.toList ++ d2 ++ s2.toList ++ d3,
          2 + s1.toList.length + 2 + s2.toList.length + 4⟩

/-- Attempt `(\d{10})` at the head: the match array has one capture group,
so `part2` and `part3` of the destructuring are `undefined`. -/
def matchP3At (l : List Char) : Option YMDMatch :=
  match takeDigits 10 l with
  | none => none
  | some (d1, _) => some ⟨d1, none, none, d1, 10⟩

/-- JS `String.prototype.matchAll` for the anchored-attempt matcher `m`:
scan left to right, collecting non-overlapping matches and resuming after
each match's end. -/
def scanAux (m : List Char → Option YMDMatch) :
    Nat → List Char → List YMDMatch
  | 0, _ => []
  | _ + 1, [] => []
  | fuel + 1, l@(_ :: rest) =>
    match m l with
    | some mt => mt :: scanAux m fuel (l.drop (max mt.len 1))
    | none => scanAux m fuel rest

/-- Matches of `m` over the whole string. -/
def scanMatches (m : List Char → Option YMDMatch) (l : List Char) :
    List YMDMatch :=
  scanAux m l.length l

/-- Date candidate: a millisecond timestamp and its source tag. -/
structure DateEntry where
  date : Int
  source : String
  deriving Repr, DecidableEq

/-- The comparison `pattern === /\b(\d{10})\b/g` of `extractOldestDate`
(src/src/modules/reorganizer.mjs, line 266): `===` on objects is reference
equality and the right-hand literal allocates a fresh RegExp on every
evaluation, so the comparison is false for every pattern (including
`datePatterns[2]`, which moreover reads `/(\d{10})/g`). -/
def jsRegexLiteralRefEq : Bool := false

/-- Loop body of the pattern scan of `extractOldestDate`
(src/src/modules/reorganizer.mjs, lines 261-295): the epoch branch is dead
(`jsRegexLiteralRefEq`); otherwise the year is the 4-character group,
validation requires year 1900-2099, month 1-12, day 1-31, and the candidate
is dropped when `new Date` is invalid.  With `part2`/`part3` undefined (the
10-digit pattern) the coercions are NaN and validation fails. -/
def candidateOfMatch (evalFullPath : Bool) (mt : YMDMatch) :
    Option DateEntry :=
  if jsRegexLiteralRefEq then
    let epoch := digitsToNat mt.full
    if (epoch : Int) ≥ 0 then
      some ⟨(epoch : Int) * 1000,
        if evalFullPath then "path (epoch)" else "filename (epoch)"⟩
    else none
  else
    let isStartYear := mt.g1.length == 4
    let year? : Option (List Char) := if isStartYear then some mt.g1 else mt.g5
    let month? := mt.g3
    let day? : Option (List Char) := if isStartYear then mt.g5 else some mt.g1
    match year?, month?, day? with
    | some ys, some ms, some ds =>
      let y := (digitsToNat ys : Int)
      let m := (digitsToNat ms : Int)
      let d := (digitsToNat ds : Int)
      if 1900 ≤ y ∧ y ≤ 2099 ∧ 1 ≤ m ∧ m ≤ 12 ∧ 1 ≤ d ∧ d ≤ 31 then
        match jsDateYMD y m d with
        | some msDate =>
          some ⟨msDate, if evalFullPath then "path" else "filename"⟩
        | none => none
      else none
    | _, _, _ => none

/-- Candidates from the path/filename scan of `extractOldestDate`
(src/src/modules/reorganizer.mjs, lines 250-296), patterns in source
order. -/
def pathDateCandidates (evalFullPath : Bool) (target : List Char) :
    List DateEntry :=
  (scanMatches matchP1At target).filterMap (candidateOfMatch evalFullPath) ++
  (scanMatches matchP2At target).filterMap (candidateOfMatch evalFullPath) ++
  (scanMatches matchP3At target).filterMap (candidateOfMatch evalFullPath)

/-- The EXIF-supported extension set of the reorganizer
(src/src/modules/reorganizer.mjs, lines 167-202). -/
def SUPPORTED_EXIF_EXTENSIONS : List String :=
  ["jpg", "jpeg", "tif", "tiff", "png", "webp", "heif", "heic", "dng",
   "arw", "cr2", "cr3", "nef", "nrw", "orf", "raf", "rw2", "raw", "rwl",
   "sr2", "srw", "3fr", "ari", "bay", "cap", "iiq", "eip", "erf", "fff",
   "mef", "mos", "mrw", "pef", "x3f"]

/-- ASCII lower-casing of a character (JS `toLowerCase` on the ASCII
extensions involved). -/
def lowerChar (c : Char) : Char :=
  if 'A' ≤ c ∧ c ≤ 'Z' then Char.ofNat (c.toNat + 32) else c

/-- ASCII lower-casing of a string. -/
def toLowerStr (s : String) : String := String.mk (s.toList.map lowerChar)

/-- Step 1 of `extractOldestDate` (src/src/modules/reorganizer.mjs, lines
227-248): when the extension is EXIF-supported and the external parser
yields a `DateTimeOriginal` (seconds), push it converted to milliseconds,
tagged `exif`; parse failures and missing tags contribute nothing. -/
def exifCandidates (file : Entry) : List DateEntry :=
  if SUPPORTED_EXIF_EXTENSIONS.contains (toLowerStr file.extension) then
    match file.exifDateTimeOriginal with
    | some sec => [⟨sec * 1000, "exif"⟩]
    | none => []
  else []

/-- Step 3 of `extractOldestDate` (src/src/modules/reorganizer.mjs, lines
298-315): only `mtime` is listed; a present `stats.mtime` (a Date object,
hence truthy) yields the candidate tagged `timestamps (mtime)`. -/
def mtimeCandidates (file : Entry) : List DateEntry :=
  match file.stats.mtime with
  | some t => [⟨t, "timestamps (mtime)"⟩]
  | none => []

/-- The `dates` list after steps 1 and 2 of `extractOldestDate`. -/
def dateCandidates12 (file : Entry) (evalFullPath : Bool := true) :
    List DateEntry :=
  exifCandidates file ++ pathDateCandidates evalFullPath
    (if evalFullPath then file.path.toList else file.name.toList)

/-- The `dates` list after step 3: the stat timestamp joins only when steps
1 and 2 produced nothing (`if (!dates.length)`). -/
def consideredCandidates (file : Entry) (evalFullPath : Bool := true) :
    List DateEntry :=
  let dates := dateCandidates12 file evalFullPath
  if dates.isEmpty then dates ++ mtimeCandidates file else dates

/-- The reduce `validDates.reduce((a, b) => a.date < b.date ? a : b)`
of step 4: without an initial value the accumulator starts at the first
element; an empty array would throw, and the source guards with
`validDates.length > 0` (modelled as `none`). -/
def earliestOf (l : List DateEntry) : Option DateEntry :=
  match l with
  | [] => none
  | v :: vs => some (vs.foldl (fun a b => if a.date < b.date then a else b) v)

/-- Embedding of `extractOldestDate` (src/src/modules/reorganizer.mjs,
lines 223-324): keep the candidates strictly after the threshold and reduce
to the earliest; `none` models the `{ date: null, ... }` result. -/
def extractOldestDate (file : Entry) (dateThreshold : Int)
    (evalFullPath : Bool := true) : Option DateEntry :=
  earliestOf ((consideredCandidates file evalFullPath).filter
    (fun e => decide (e.date > dateThreshold)))

/-- Replace the first occurrence of `pat` (JS `String.replace` with a
string pattern). -/
def replaceFirstChars : List Char → List Char → List Char → List Char
  | [], pat, repl => if pat.isPrefixOf ([] : List Char) then repl else []
  | l@(c :: rest), pat, repl =>
    if pat.isPrefixOf l then repl ++ l.drop pat.length
    else c :: replaceFirstChars rest pat repl

/-- String-level first-occurrence replacement. -/
def replaceFirst (s pat repl : String) : String :=
  String.mk (replaceFirstChars s.toList pat.toList repl.toList)

/-- JS `String.prototype.includes`. -/
def containsSub : List Char → List Char → Bool
  | [], sub => sub.isEmpty
  | l@(_ :: rest), sub => sub.isPrefixOf l || containsSub rest sub

/-- String-level substring test. -/
def containsSubStr (s sub : String) : Bool := containsSub s.toList sub.toList

/-- Index of the last '.' of a name, if any. -/
def lastDotIdx (l : List Char) : Option Nat :=
  go l 0 none
where
  go : List Char → Nat → Option Nat → Option Nat
    | [], _, best => best
    | c :: rest, i, best => go rest (i + 1) (if c = '.' then some i else best)

/-- Model of Node `path.extname` for a plain (slash-free) file name. -/
def extname (name : String) : String :=
  match lastDotIdx name.toList with
  | some i => if i = 0 then "" else String.mk (name.toList.drop i)
  | none => ""

/-- Embedding of `appendToFilename` (src/src/modules/reorganizer.mjs, lines
210-214): insert the appended string between base name and extension. -/
def appendToFilename (fileName appendString : String) : String :=
  let ext := extname fileName
  let base := String.mk (fileName.toList.take
    (fileName.toList.length - ext.toList.length))
  base ++ appendString ++ ext

/-- The global `.replace(/[\\/]/g, '_')` of the reorganizer. -/
def replaceSlashesWithUnderscore (s : String) : String :=
  String.mk (s.toList.map (fun c => if c = '/' ∨ c = '\\' then '_' else c))

/-- JS `String(n).padStart(2, '0')`. -/
def pad2 (n : Int) : String :=
  let s := toString n
  if s.length < 2 then "0" ++ s else s

/-- Reorganize operation (src/src/modules/reorganizer.mjs, lines 365-369). -/
structure ReorgOp where
  path : String
  move_to : String
  date : DateEntry
  deriving Repr, DecidableEq

/-- Target directory of a file's extracted date
(src/src/modules/reorganizer.mjs, lines 350-357): substitute year,
zero-padded month and day into the template and join under `relPath`. -/
def reorgTargetDir (targetStructure relPath : String) (od : DateEntry) :
    String :=
  let year := getUTCFullYear od.date
  let month := pad2 (getUTCMonth od.date + 1)
  let day := pad2 (getUTCDate od.date)
  pathJoin relPath
    (replaceFirst (replaceFirst (replaceFirst targetStructure
      "{year}" (toString year)) "{month}" month) "{day}" day)

/-- The `pathRef` of the reorganizer (src/src/modules/reorganizer.mjs, line
359): normalized parent directory with the first occurrence of `relPath`
removed and separators replaced by underscores. -/
def reorgPathRef (relPath : String) (file : Entry) : String :=
  replaceSlashesWithUnderscore (replaceFirst (normalizePath file.dir)
    relPath "")

/-- Target name (src/src/modules/reorganizer.mjs, lines 360-362): keep the
name when it already contains `pathRef`, else append `_pathRef` before the
extension. -/
def reorgTargetName (relPath : String) (file : Entry) : String :=
  let pathRef := reorgPathRef relPath file
  if containsSubStr file.name pathRef then file.name
  else appendToFilename file.name ("_" ++ pathRef)

/-- Per-file body of `getReorganizeItems`
(src/src/modules/reorganizer.mjs, lines 338-374): skip when no valid date,
a directory, or marked for deletion; emit only when the normalized target
directory differs from the normalized current directory. -/
def reorgItem (targetStructure : String) (dateThreshold : Int)
    (relPath : String) (file : Entry) : Option ReorgOp :=
  (extractOldestDate file dateThreshold).bind (fun oldestDate =>
    if file.isDirectory || file.delete then none
    else
      let targetDir := reorgTargetDir targetStructure relPath oldestDate
      if normalizePath targetDir ≠ normalizePath file.dir then
        some ⟨file.path, pathJoin targetDir (reorgTargetName relPath file),
          oldestDate⟩
      else none)

/-- Embedding of `getReorganizeItems` (src/src/modules/reorganizer.mjs,
lines 334-384): the per-file results with the nulls filtered out, in map
order. -/
def getReorganizeItems (files : List Entry)
    (targetStructure : String := "/{year}/{month}/")
    (dateThreshold : Int := defaultDateThreshold) (relPath : String) :
    List ReorgOp :=
  files.filterMap (reorgItem targetStructure dateThreshold relPath)

/-- Modelled from the spec: effect of the executor's Move contract (spec
section 6) on a scan entry — the entry reappears at `move_to`, with `dir`
and `name` derived from the new path and all other attributes (stat
snapshot, extension, flags) unchanged.  Used only to construct the
second-run scan of the idempotence scenario; the executor itself performs
filesystem renames. -/
def applyMoveEntry (f : Entry) (op : ReorgOp) : Entry :=
  { f with
    path := op.move_to
    dir := dirname op.move_to
    name := basename op.move_to }

/-- File of the C8 input: a standalone 10-digit number 1609459200 in the
path, no EXIF data, mtime 2010-05-05. -/
def file8 : Entry :=
  { baseEntry with
    path := "/r/1609459200/x.txt", dir := "/r/1609459200", name := "x.txt",
    baseName := "x", extension := "txt", depth := 1, size := 1,
    stats := { size := 1, nlink := 1, ctimeMs := 0, birthtimeMs := 0,
               mtime := some (msOfYMD 2010 5 5) } }

/-- File of the C4 witness: a dash-separated date in the path and an mtime
that must not participate. -/
def file4 : Entry :=
  { baseEntry with
    path := "/r/2001-05-06/a.jpg", dir := "/r/2001-05-06", name := "a.jpg",
    baseName := "a", extension := "jpg", depth := 1, size := 1,
    stats := { size := 1, nlink := 1, ctimeMs := 0, birthtimeMs := 0,
               mtime := some (msOfYMD 2015 1 1) } }

/-- File of the C5 counterexample: scanned under /s while `relativePath` is
/a21; the path carries no parseable date (the digit runs are too short), so
the first run falls back to mtime 1997-03-15; the directory name a211231
contains the characters that, after the move's renaming, fuse into the
parseable date 19991231. -/
def file5 : Entry :=
  { baseEntry with
    path := "/s/1999/a211231/pic.jpg", dir := "/s/1999/a211231",
    name := "pic.jpg", baseName := "pic", extension := "jpg", depth := 2,
    size := 9,
    stats := { size := 9, nlink := 1, ctimeMs := 0, birthtimeMs := 0,
               mtime := some (msOfYMD 1997 3 15) } }

/-
Theorems.  Helper lemmas come first, then one theorem per claim (with its
witness or counterexample).
-/

theorem olderThan_self (a : Entry) : olderThan a a = false := by
  simp only [olderThan, decide_eq_false_iff_not]
  omega

theorem olderThan_false_iff (a b : Entry) :
    olderThan a b = false ↔ keyLe b a := by
  simp only [olderThan, keyLe, decide_eq_false_iff_not]
  omega

theorem olderThan_true_keyLe {a b : Entry} (h : olderThan a b = true) :
    keyLe a b := by
  simp only [olderThan, decide_eq_true_eq] at h
  unfold keyLe
  omega

theorem keyLe_refl (a : Entry) : keyLe a a := by
  unfold keyLe; omega

theorem keyLe_trans {a b c : Entry} (h₁ : keyLe a b) (h₂ : keyLe b c) :
    keyLe a c := by
  unfold keyLe at *; omega

theorem olderThan_keyLe_trans {a b c : Entry} (h₁ : olderThan a b = true)
    (h₂ : keyLe b c) : olderThan a c = true := by
  simp only [olderThan, decide_eq_true_eq] at *
  unfold keyLe at h₂
  omega

theorem olderThan_trans {a b c : Entry} (h₁ : olderThan a b = true)
    (h₂ : olderThan b c = true) : olderThan a c = true :=
  olderThan_keyLe_trans h₁ (olderThan_true_keyLe h₂)

theorem foldl_dupStep_mem (l : List Entry) (acc : Entry) :
    l.foldl dupStep acc = acc ∨ l.foldl dupStep acc ∈ l := by
  induction l generalizing acc with
  | nil => exact Or.inl rfl
  | cons z l ih =>
    simp only [List.foldl_cons]
    rcases ih (dupStep acc z) with h | h
    · rw [h]
      unfold dupStep
      split
      · exact Or.inr (List.mem_cons_self _ _)
      · exact Or.inl rfl
    · exact Or.inr (List.mem_cons_of_mem _ h)

theorem dupStep_keyLe_left (acc z : Entry) : keyLe (dupStep acc z) acc := by
  unfold dupStep
  split
  · exact olderThan_true_keyLe ‹_›
  · exact keyLe_refl _

theorem dupStep_keyLe_right (acc z : Entry) : keyLe (dupStep acc z) z := by
  unfold dupStep
  split
  · exact keyLe_refl _
  · next h =>
    exact (olderThan_false_iff z acc).mp (Bool.eq_false_iff.mpr h)

theorem foldl_dupStep_keyLe_acc (l : List Entry) (acc : Entry) :
    keyLe (l.foldl dupStep acc) acc := by
  induction l generalizing acc with
  | nil => exact keyLe_refl acc
  | cons z l ih =>
    simp only [List.foldl_cons]
    exact keyLe_trans (ih (dupStep acc z)) (dupStep_keyLe_left acc z)

theorem foldl_dupStep_keyLe (l : List Entry) (acc : Entry) :
    ∀ y ∈ l, keyLe (l.foldl dupStep acc) y := by
  induction l generalizing acc with
  | nil => intro y hy; simp at hy
  | cons z l ih =>
    intro y hy
    simp only [List.foldl_cons]
    rcases List.mem_cons.mp hy with rfl | hl
    · exact keyLe_trans (foldl_dupStep_keyLe_acc l (dupStep acc y))
        (dupStep_keyLe_right acc y)
    · exact ih (dupStep acc z) y hl

theorem foldl_dupStep_split (l : List Entry) (acc : Entry) :
    l.foldl dupStep acc = acc ∨
    ∃ l₁ l₂, l = l₁ ++ (l.foldl dupStep acc) :: l₂ ∧
      olderThan (l.foldl dupStep acc) acc = true ∧
      ∀ y ∈ l₁, olderThan (l.foldl dupStep acc) y = true := by
  induction l generalizing acc with
  | nil => exact Or.inl rfl
  | cons z l ih =>
    simp only [List.foldl_cons]
    cases hcase : olderThan z acc with
    | true =>
      have hmid : dupStep acc z = z := by simp [dupStep, hcase]
      rw [hmid]
      rcases ih z with h | ⟨l₁, l₂, heq, hz, hall⟩
      · right
        exact ⟨[], l, by simp [h], by rw [h]; exact hcase, by simp⟩
      · right
        refine ⟨z :: l₁, l₂, by rw [List.cons_append, ← heq], ?_, ?_⟩
        · exact olderThan_trans hz hcase
        · intro y hy
          rcases List.mem_cons.mp hy with rfl | hy
          · exact hz
          · exact hall y hy
    | false =>
      have hmid : dupStep acc z = acc := by simp [dupStep, hcase]
      rw [hmid]
      rcases ih acc with h | ⟨l₁, l₂, heq, hacc, hall⟩
      · exact Or.inl h
      · right
        refine ⟨z :: l₁, l₂, by rw [List.cons_append, ← heq], hacc, ?_⟩
        intro y hy
        rcases List.mem_cons.mp hy with rfl | hy
        · exact olderThan_keyLe_trans hacc
            ((olderThan_false_iff y acc).mp hcase)
        · exact hall y hy

/-- C3 counterexample: two files tied on `min(ctimeMs, birthtimeMs)` and on
name length.  `determineOriginal` keeps whichever comes first in the list,
so the result changes under permutation, and with `[e3a, e3b]` it does not
return the lexicographically smaller path `e3b.path`. -/
theorem C3_counterexample :
    determineOriginal [e3a, e3b] = some e3a ∧
    determineOriginal [e3b, e3a] = some e3b ∧
    e3a ≠ e3b ∧
    fileTimestamp e3a = fileTimestamp e3b ∧
    e3a.name.length = e3b.name.length ∧
    e3b.path.data < e3a.path.data := by
  refine ⟨by decide, by decide, by decide, by decide, by decide, by decide⟩

/-- C3 as amended: `determineOriginal` of a singleton is that element; in
general the result is a member of the list, minimizes the timestamp (with
shorter name length as first tie-break), and among fully tied elements is
the FIRST in list order (not the lexicographically smallest path, and hence
not invariant under permutation). -/
theorem C3_determineOriginal_amended :
    (∀ x : Entry, determineOriginal [x] = some x) ∧
    (∀ (L : List Entry) (r : Entry), determineOriginal L = some r →
      r ∈ L ∧ (∀ y ∈ L, keyLe r y) ∧
      ∃ L₁ L₂, L = L₁ ++ r :: L₂ ∧ ∀ y ∈ L₁, olderThan r y = true) := by
  constructor
  · intro x
    simp [determineOriginal, dupStep]
  · intro L r h
    cases L with
    | nil => simp [determineOriginal] at h
    | cons x xs =>
      have hr : (x :: xs).foldl dupStep x = r := by
        simpa [determineOriginal] using h
      have hxx : dupStep x x = x := by simp [dupStep]
      have hfold : xs.foldl dupStep x = r := by
        simpa [List.foldl_cons, hxx] using hr
      refine ⟨?_, ?_, ?_⟩
      · rcases foldl_dupStep_mem xs x with hm | hm
        · rw [hfold] at hm; rw [← hm]; exact List.mem_cons_self _ _
        · rw [hfold] at hm; exact List.mem_cons_of_mem _ hm
      · intro y hy
        rcases List.mem_cons.mp hy with rfl | hy
        · rw [← hfold]; exact foldl_dupStep_keyLe_acc xs y
        · rw [← hfold]; exact foldl_dupStep_keyLe xs x y hy
      · rcases foldl_dupStep_split xs x with hm | ⟨l₁, l₂, heq, hacc, hall⟩
        · rw [hfold] at hm
          exact ⟨[], xs, by simp [hm], by simp⟩
        · rw [hfold] at heq hacc hall
          exact ⟨x :: l₁, l₂, by rw [List.cons_append, ← heq],
            fun y hy => by
              rcases List.mem_cons.mp hy with rfl | hy
              · exact hacc
              · exact hall y hy⟩

/-- C3 witness: the amended theorem applied to the two-element list
`[e3b, e3a]`, whose original is computed by `decide`. -/
theorem C3_amended_witness :
    e3b ∈ [e3b, e3a] ∧ (∀ y ∈ [e3b, e3a], keyLe e3b y) := by
  have h := C3_determineOriginal_amended.2 [e3b, e3a] e3b (by decide)
  exact ⟨h.1, h.2.1⟩

theorem splitSlash_ne_nil (l : List Char) : splitSlash l ≠ [] := by
  induction l with
  | nil => simp [splitSlash]
  | cons c rest ih =>
    cases h : splitSlash rest with
    | nil => exact absurd h ih
    | cons seg segs =>
      simp only [splitSlash, h]
      split <;> simp

theorem splitSlash_cons_slash (l : List Char) :
    splitSlash ('/' :: l) = [] :: splitSlash l := by
  cases h : splitSlash l with
  | nil => exact absurd h (splitSlash_ne_nil l)
  | cons seg segs => simp [splitSlash, h]

theorem splitSlash_noSlash (s : List Char) (hs : '/' ∉ s) :
    splitSlash s = [s] := by
  induction s with
  | nil => rfl
  | cons c s ih =>
    have hc : c ≠ '/' := fun h => hs (h ▸ List.mem_cons_self _ _)
    have hrest : '/' ∉ s := fun h => hs (List.mem_cons_of_mem _ h)
    simp only [splitSlash]
    rw [ih hrest]
    simp [hc]

theorem splitSlash_append_sep (s t : List Char) (hs : '/' ∉ s) :
    splitSlash (s ++ '/' :: t) = s :: splitSlash t := by
  induction s with
  | nil => exact splitSlash_cons_slash t
  | cons c s ih =>
    have hc : c ≠ '/' := fun h => hs (h ▸ List.mem_cons_self _ _)
    have hrest : '/' ∉ s := fun h => hs (List.mem_cons_of_mem _ h)
    simp only [List.cons_append, splitSlash, List.append_eq]
    rw [ih hrest]
    simp [hc]

theorem joinSlash_cons (s : List Char) (r : List (List Char)) (h : r ≠ []) :
    joinSlash (s :: r) = s ++ '/' :: joinSlash r := by
  cases r with
  | nil => exact absurd rfl h
  | cons a t => rfl

theorem splitSlash_joinSlash (segs : List (List Char))
    (h : ∀ seg ∈ segs, '/' ∉ seg) (hne : segs ≠ []) :
    splitSlash (joinSlash segs) = segs := by
  induction segs with
  | nil => exact absurd rfl hne
  | cons s rest ih =>
    cases rest with
    | nil => exact splitSlash_noSlash s (h s (List.mem_cons_self _ _))
    | cons a t =>
      rw [joinSlash_cons s (a :: t) (by simp)]
      rw [splitSlash_append_sep _ _ (h s (List.mem_cons_self _ _))]
      rw [ih (fun seg hseg => h seg (List.mem_cons_of_mem _ hseg)) (by simp)]

theorem filter_ne_nil_of_all {segs : List (List Char)}
    (h : ∀ seg ∈ segs, seg ≠ []) : segs.filter (· ≠ []) = segs :=
  List.filter_eq_self.mpr (fun a ha => by simpa using h a ha)

theorem cleanAbs_fix (segs : List (List Char))
    (hw : ∀ seg ∈ segs, isSeg seg) (hne : segs ≠ []) :
    cleanAbs ('/' :: joinSlash segs) = '/' :: joinSlash segs := by
  unfold cleanAbs
  rw [splitSlash_cons_slash,
    splitSlash_joinSlash segs (fun seg hseg => (hw seg hseg).2) hne]
  rw [List.filter_cons]
  have hdec : (decide (([] : List Char) ≠ [])) = false := by simp
  simp only [hdec, if_false, cond_false]
  rw [filter_ne_nil_of_all (fun seg hseg => (hw seg hseg).1)]
  simp [hne]

theorem splitSlash_resolve_mkAbs (segs : List (List Char))
    (hw : ∀ seg ∈ segs, isSeg seg) (hne : segs ≠ []) :
    splitSlash (pathResolve (mkAbs segs)).toList = [] :: segs := by
  show splitSlash (cleanAbs ('/' :: joinSlash segs)) = [] :: segs
  rw [cleanAbs_fix segs hw hne, splitSlash_cons_slash,
    splitSlash_joinSlash segs (fun seg hseg => (hw seg hseg).2) hne]

theorem findDivergence_go_prefix (bs ts : List (List Char)) :
    ∀ i : Nat, findDivergence.go bs (bs ++ ts) i = -1 := by
  induction bs with
  | nil => intro i; rfl
  | cons b bs ih =>
    intro i
    simp only [List.cons_append, findDivergence.go, if_pos rfl]
    exact ih (i + 1)

theorem findDivergence_prefix (bs ts : List (List Char)) :
    findDivergence bs (bs ++ ts) = -1 :=
  findDivergence_go_prefix bs ts 0

/-- Last segment of a nonempty segment list. -/
def lastSeg : List (List Char) → List Char
  | [] => []
  | [s] => s
  | _ :: r => lastSeg r

theorem lastSeg_cons (x : List Char) (r : List (List Char)) (h : r ≠ []) :
    lastSeg (x :: r) = lastSeg r := by
  cases r with
  | nil => exact absurd rfl h
  | cons a t => rfl

theorem lastSeg_append (xs ys : List (List Char)) (h : ys ≠ []) :
    lastSeg (xs ++ ys) = lastSeg ys := by
  induction xs with
  | nil => rfl
  | cons x r ih =>
    rw [List.cons_append, lastSeg_cons x (r ++ ys) (by simp [h]), ih]

theorem lastSeg_mem (l : List (List Char)) (h : l ≠ []) : lastSeg l ∈ l := by
  induction l with
  | nil => exact absurd rfl h
  | cons x r ih =>
    cases r with
    | nil => simp [lastSeg]
    | cons a t =>
      rw [lastSeg_cons x (a :: t) (by simp)]
      exact List.mem_cons_of_mem _ (ih (by simp))

theorem drop_length_sub_one (l : List (List Char)) (h : l ≠ []) :
    l.drop (l.length - 1) = [lastSeg l] := by
  induction l with
  | nil => exact absurd rfl h
  | cons x r ih =>
    cases r with
    | nil => rfl
    | cons y t =>
      have hlen : (x :: y :: t).length - 1 = (y :: t).length := by simp
      rw [hlen, lastSeg_cons x (y :: t) (by simp)]
      have h2 : List.drop ((y :: t).length) (x :: y :: t) =
          List.drop ((y :: t).length - 1) (y :: t) := by
        simp only [List.length_cons, Nat.add_sub_cancel, List.drop_succ_cons]
      rw [h2]
      exact ih (by simp)

theorem joinSlash_append_single (xs : List (List Char)) (y : List Char)
    (h : xs ≠ []) : joinSlash (xs ++ [y]) = joinSlash xs ++ '/' :: y := by
  induction xs with
  | nil => exact absurd rfl h
  | cons x r ih =>
    cases r with
    | nil => rfl
    | cons a t =>
      rw [List.cons_append, joinSlash_cons x ((a :: t) ++ [y]) (by simp),
        joinSlash_cons x (a :: t) (by simp), ih (by simp)]
      simp

theorem rebasePath_under_base (bsegs subsegs : List (List Char))
    (hb : bsegs ≠ []) (hs : subsegs ≠ [])
    (hwb : ∀ seg ∈ bsegs, isSeg seg) (hws : ∀ seg ∈ subsegs, isSeg seg) :
    rebasePath (mkAbs bsegs) (mkAbs (bsegs ++ subsegs)) =
      mkAbs (bsegs ++ [lastSeg subsegs]) := by
  have hwall : ∀ seg ∈ bsegs ++ subsegs, isSeg seg := by
    intro seg hseg
    rcases List.mem_append.mp hseg with h | h
    · exact hwb seg h
    · exact hws seg h
  have hdiv : findDivergence ([] :: bsegs) ([] :: (bsegs ++ subsegs)) = -1 := by
    have : ([] : List Char) :: (bsegs ++ subsegs) =
        (([] : List Char) :: bsegs) ++ subsegs := by simp
    rw [this]
    exact findDivergence_prefix ([] :: bsegs) subsegs
  have hslice : jsSlice (([] : List Char) :: (bsegs ++ subsegs)) (-1) =
      [lastSeg subsegs] := by
    unfold jsSlice
    rw [if_pos (by norm_num)]
    have hmin : min (([] : List Char) :: (bsegs ++ subsegs)).length
        ((-(-1 : Int)).toNat) = 1 := by
      simp
    have hlen1 : (([] : List Char) :: (bsegs ++ subsegs)).length -
        min (([] : List Char) :: (bsegs ++ subsegs)).length
          ((-(-1 : Int)).toNat) =
        (([] : List Char) :: (bsegs ++ subsegs)).length - 1 := by
      rw [hmin]
    rw [hlen1, drop_length_sub_one _ (by simp),
      lastSeg_cons _ _ (by simp [hb]), lastSeg_append bsegs subsegs hs]
  unfold rebasePath
  rw [splitSlash_resolve_mkAbs bsegs hwb hb,
    splitSlash_resolve_mkAbs (bsegs ++ subsegs) hwall (by simp [hb])]
  show pathJoin (mkAbs bsegs)
      (String.mk (joinSlash (jsSlice ([] :: (bsegs ++ subsegs))
        (findDivergence ([] :: bsegs) ([] :: (bsegs ++ subsegs)))))) =
      mkAbs (bsegs ++ [lastSeg subsegs])
  rw [hdiv, hslice]
  have hjoin1 : joinSlash [lastSeg subsegs] = lastSeg subsegs := rfl
  rw [hjoin1]
  show String.mk (cleanAbs (('/' :: joinSlash bsegs) ++ '/' :: lastSeg subsegs))
      = mkAbs (bsegs ++ [lastSeg subsegs])
  have hcat : ('/' :: joinSlash bsegs) ++ '/' :: lastSeg subsegs =
      '/' :: joinSlash (bsegs ++ [lastSeg subsegs]) := by
    rw [joinSlash_append_single bsegs (lastSeg subsegs) hb]
    rfl
  rw [hcat, cleanAbs_fix (bsegs ++ [lastSeg subsegs]) ?_ (by simp)]
  · rfl
  · intro seg hseg
    rcases List.mem_append.mp hseg with h | h
    · exact hwb seg h
    · rw [List.mem_singleton.mp h]
      exact hws _ (lastSeg_mem subsegs hs)

/-- C9 counterexample: rebasing a target that lies under the base does not
return the target when the suffix has more than one segment —
`findIndex` yields -1 and `slice(-1)` keeps only the last segment. -/
theorem C9_counterexample :
    rebasePath "/r/bin" "/r/bin/a/b" = "/r/bin/b" ∧
    "/r/bin/b" ≠ "/r/bin/a/b" := by
  exact ⟨by decide, by decide⟩

/-- C9 as amended: when the target lies strictly under the base,
`rebasePath` returns the base joined with only the LAST segment of the
target; in particular `rebase(B, B/sub) = B/sub` holds exactly when `sub`
is a single segment. -/
theorem C9_rebasePath_amended (bsegs subsegs : List (List Char))
    (hb : bsegs ≠ []) (hs : subsegs ≠ [])
    (hwb : ∀ seg ∈ bsegs, isSeg seg) (hws : ∀ seg ∈ subsegs, isSeg seg) :
    rebasePath (mkAbs bsegs) (mkAbs (bsegs ++ subsegs)) =
      mkAbs (bsegs ++ [lastSeg subsegs]) ∧
    (∀ s, isSeg s →
      rebasePath (mkAbs bsegs) (mkAbs (bsegs ++ [s])) = mkAbs (bsegs ++ [s])) := by
  refine ⟨rebasePath_under_base bsegs subsegs hb hs hwb hws, ?_⟩
  intro s hseg
  have := rebasePath_under_base bsegs [s] hb (by simp)
    hwb (by intro seg hsg; rw [List.mem_singleton.mp hsg]; exact hseg)
  simpa [lastSeg] using this

/-- C9 witness: the amended theorem applied to base `/r/bin` and the single
segment `a`. -/
theorem C9_amended_witness :
    rebasePath (mkAbs [['r'], ['b', 'i', 'n']])
      (mkAbs ([['r'], ['b', 'i', 'n']] ++ [['a']])) =
      mkAbs ([['r'], ['b', 'i', 'n']] ++ [['a']]) := by
  exact (C9_rebasePath_amended [['r'], ['b', 'i', 'n']] [['a']]
    (by decide) (by decide) (by decide) (by decide)).2 ['a'] (by decide)

/-- C10: `hashFileChunk` hashes the zero-initialized `chunkSize`-byte buffer
whose first `min(fileSize, chunkSize)` bytes are the file content, so the
digest depends only on the zero-padded prefix: contents that differ only by
trailing zero bytes inside the chunk (here one byte versus the same byte
followed by two zero bytes, both shorter than the chunk size 4) receive the
same chunk hash under every digest function. -/
theorem C10_hashFileChunk_zero_padded :
    (∀ (md5 : List Nat → String) (c : List Nat) (k : Nat),
      hashFileChunk md5 c k =
        md5 (c.take (min c.length k) ++ List.replicate (k - min c.length k) 0)) ∧
    (∀ (md5 : List Nat → String) (c₁ c₂ : List Nat) (k : Nat),
      chunkBuffer c₁ k = chunkBuffer c₂ k →
        hashFileChunk md5 c₁ k = hashFileChunk md5 c₂ k) ∧
    (c10a ≠ c10b ∧ c10a.length < 4 ∧ c10b.length < 4 ∧
      ∀ md5 : List Nat → String,
        hashFileChunk md5 c10a 4 = hashFileChunk md5 c10b 4) := by
  refine ⟨?_, ?_, by decide, by decide, by decide, ?_⟩
  · intro md5 c k
    unfold hashFileChunk chunkBuffer
    congr 1
    rw [List.length_take]
    congr 1
    · exact List.take_eq_take.mpr (by omega)
    · congr 1
      omega
  · intro md5 c₁ c₂ k h
    unfold hashFileChunk
    rw [h]
  · intro md5
    unfold hashFileChunk
    exact congrArg md5 (by decide)

/-- C10 witness: the padded-buffer congruence applied to the concrete pair
`c10a`, `c10b` at chunk size 4. -/
theorem C10_witness :
    hashFileChunk (fun _ => "") c10a 4 = hashFileChunk (fun _ => "") c10b 4 :=
  C10_hashFileChunk_zero_padded.2.1 (fun _ => "") c10a c10b 4 (by decide)

/-- C6: on the scan model of the literal tree /r/a/b (empty), /r/a/c/d
(empty), /r/keep.txt (size 10) with threshold 0, pre-cleanup emits a move
for /r/a only — the nested empty directories /r/a/b, /r/a/c and /r/a/c/d
are suppressed through the removal-paths chain, no file is emitted, and
the accepted move rebases onto the recycle bin. -/
theorem C6_empty_dir_cascade :
    (getCleanUpItems [keepTxt] [dirA, dirAB, dirAC, dirACD] "/r"
      "/r/#recycle").directories.map (fun op => op.item.path) = ["/r/a"] ∧
    (getCleanUpItems [keepTxt] [dirA, dirAB, dirAC, dirACD] "/r"
      "/r/#recycle").directories.map (fun op => op.move_to) =
      ["/r/#recycle/a"] ∧
    (getCleanUpItems [keepTxt] [dirA, dirAB, dirAC, dirACD] "/r"
      "/r/#recycle").files = [] := by
  exact ⟨by decide, by decide, by decide⟩

/-- C7 counterexample: in the tree /r/d/f.txt plus empty subdirectory
/r/d/sub, the file f.txt is the only file directly inside /r/d, yet no
orphan is emitted — `updateDirectoryStats` counts every descendant entry
(including the subdirectory) into `fileCount`, which is 2 here instead of
the 1 the claim's reading of fileCount predicts. -/
theorem C7_counterexample :
    (((scanFold "/r" [dir7d, file7f, dir7sub]).files.map Prod.snd).filter
      (fun f => f.dir == "/r/d")).length = 1 ∧
    (((scanFold "/r" [dir7d, file7f, dir7sub]).directories.lookup
      "/r/d").map (·.fileCount)) = some 2 ∧
    getOrphanItems (scanFold "/r" [dir7d, file7f, dir7sub]) "/r/#recycle" =
      [] := by
  exact ⟨by decide, by decide, by decide⟩

theorem orphanCheck_eq_some (scan : Scan) (binPath : String) (f : Entry)
    (op : OrphOp) :
    orphanCheck scan binPath f = some op ↔
      (scan.directories.lookup f.dir).map (·.fileCount) = some 1 ∧
        op = ⟨f, rebasePath binPath f.path⟩ := by
  unfold orphanCheck
  cases hlook : scan.directories.lookup f.dir with
  | none => simp
  | some d =>
    show (if (d.fileCount == 1) = true
        then some (⟨f, rebasePath binPath f.path⟩ : OrphOp) else none) =
          some op ↔
      Option.map (fun x => x.fileCount) (some d) = some 1 ∧
        op = ⟨f, rebasePath binPath f.path⟩
    by_cases hc : d.fileCount = 1
    · rw [if_pos (by simp [hc])]
      constructor
      · intro h
        exact ⟨by simp [hc], (Option.some_inj.mp h).symm⟩
      · rintro ⟨-, rfl⟩
        rfl
    · rw [if_neg (by simp [hc])]
      constructor
      · intro h
        exact absurd h (by simp)
      · rintro ⟨h1, -⟩
        exact absurd (by simpa using h1) hc

/-- C7 as amended: the orphan analyzer emits (with the path rebased onto the
recycle bin) exactly those files whose parent directory record carries
`fileCount = 1`, where `fileCount` — as aggregated by
`updateDirectoryStats` — counts ALL descendant entries of the parent, files
and subdirectories at any depth; a lone file accompanied by a subdirectory
is therefore not an orphan.  For /r/only/solo.xml as the single entry of
/r/only the operation moves it to /r/#recycle/only/solo.xml. -/
theorem C7_orphan_amended :
    (∀ (scan : Scan) (binPath : String),
      (∀ op ∈ getOrphanItems scan binPath,
        op.item ∈ scan.files.map Prod.snd ∧
        (scan.directories.lookup op.item.dir).map (·.fileCount) = some 1 ∧
        op.move_to = rebasePath binPath op.item.path) ∧
      (∀ f ∈ scan.files.map Prod.snd,
        (scan.directories.lookup f.dir).map (·.fileCount) = some 1 →
          (⟨f, rebasePath binPath f.path⟩ : OrphOp) ∈
            getOrphanItems scan binPath)) ∧
    getOrphanItems (scanFold "/r" [dir7only, file7solo]) "/r/#recycle" =
      [⟨file7solo, "/r/#recycle/only/solo.xml"⟩] := by
  constructor
  · intro scan binPath
    constructor
    · intro op hop
      obtain ⟨f, hf, hcheck⟩ := List.mem_filterMap.mp hop
      obtain ⟨hcount, rfl⟩ := (orphanCheck_eq_some scan binPath f op).mp hcheck
      exact ⟨hf, hcount, rfl⟩
    · intro f hf hcount
      exact List.mem_filterMap.mpr
        ⟨f, hf, (orphanCheck_eq_some scan binPath f _).mpr ⟨hcount, rfl⟩⟩
  · decide

/-- C7 witness: the amended characterization applied to the lone file
/r/only/solo.xml of the witness scan. -/
theorem C7_amended_witness :
    (⟨file7solo, rebasePath "/r/#recycle" file7solo.path⟩ : OrphOp) ∈
      getOrphanItems (scanFold "/r" [dir7only, file7solo]) "/r/#recycle" := by
  exact (C7_orphan_amended.1 (scanFold "/r" [dir7only, file7solo])
    "/r/#recycle").2 file7solo (by decide) (by decide)

/-- C2: on two directories sharing the shape key (1, 1, 1, 2, 4096) whose
recursive hashes differ (the hash function here is the path itself), the
hash verification stage `processGroupedItems` correctly yields NO
duplicates and an empty `duplicateDirPaths`, yet `groupItems` returns the
raw surviving shape group — both members, including the original /r/x and
the hash-mismatched /r/y — as its `directories` component, because line 286
returns `filterOutSingleGroups(groupedItems.directories)` instead of the
computed `duplicateDirs`. -/
theorem C2_directory_groups_returned_unverified :
    ((groupItemsDirectories [dir2x, dir2y] (fun e => e.path)).1.map
      (fun kv => kv.2.map (·.path))) = [["/r/x", "/r/y"]] ∧
    (groupItemsDirectories [dir2x, dir2y] (fun e => e.path)).2.1 =
      [("1_1_1_2_4096", [])] ∧
    (groupItemsDirectories [dir2x, dir2y] (fun e => e.path)).2.2 = [] := by
  exact ⟨by decide, by decide, by decide⟩

theorem orphanStage_dup_eq (a : List String) (o : List AnItem)
    (st : PlanOps × List (Option String)) :
    (orphanStage a o st).1.duplicate = st.1.duplicate := by
  unfold orphanStage; split <;> rfl

theorem precleanStage_dup_eq (a : List String) (pf pd : List AnItem)
    (st : PlanOps × List (Option String)) :
    (precleanStage a pf pd st).1.duplicate = st.1.duplicate := by
  unfold precleanStage; split <;> rfl

theorem dupStage_orphan_eq (a : List String) (dd df : List AnItem)
    (st : PlanOps × List (Option String)) :
    (dupStage a dd df st).1.orphan = st.1.orphan := by
  unfold dupStage; split <;> rfl

theorem precleanStage_orphan_eq (a : List String) (pf pd : List AnItem)
    (st : PlanOps × List (Option String)) :
    (precleanStage a pf pd st).1.orphan = st.1.orphan := by
  unfold precleanStage; split <;> rfl

theorem dupStage_preclean_eq (a : List String) (dd df : List AnItem)
    (st : PlanOps × List (Option String)) :
    (dupStage a dd df st).1.preCleanup = st.1.preCleanup := by
  unfold dupStage; split <;> rfl

theorem orphanStage_preclean_eq (a : List String) (o : List AnItem)
    (st : PlanOps × List (Option String)) :
    (orphanStage a o st).1.preCleanup = st.1.preCleanup := by
  unfold orphanStage; split <;> rfl

theorem dupStage_snd_mono (a : List String) (dd df : List AnItem)
    (st : PlanOps × List (Option String)) {x : Option String} (h : x ∈ st.2) :
    x ∈ (dupStage a dd df st).2 := by
  unfold dupStage; split
  · exact List.mem_append_left _ h
  · exact h

theorem orphanStage_snd_mono (a : List String) (o : List AnItem)
    (st : PlanOps × List (Option String)) {x : Option String} (h : x ∈ st.2) :
    x ∈ (orphanStage a o st).2 := by
  unfold orphanStage; split
  · exact List.mem_append_left _ h
  · exact h

theorem precleanStage_snd_mono (a : List String) (pf pd : List AnItem)
    (st : PlanOps × List (Option String)) {x : Option String} (h : x ∈ st.2) :
    x ∈ (precleanStage a pf pd st).2 := by
  unfold precleanStage; split
  · exact List.mem_append_left _ h
  · exact h

theorem dupStage_inv (a : List String) (dd df : List AnItem)
    (st : PlanOps × List (Option String))
    (h : ∀ x ∈ st.1.duplicate, x.path ∈ st.2) :
    ∀ x ∈ (dupStage a dd df st).1.duplicate, x.path ∈ (dupStage a dd df st).2 := by
  unfold dupStage
  split
  · intro x hx
    simp only [List.mem_append] at hx
    rcases hx with hx | hx
    · exact List.mem_append_left _ (h x hx)
    · refine List.mem_append_right _ ?_
      obtain ⟨o, ho, rfl⟩ := List.mem_map.mp hx
      exact List.mem_map.mpr ⟨o, ho, rfl⟩
  · exact h

theorem orphanStage_inv (a : List String) (o : List AnItem)
    (st : PlanOps × List (Option String))
    (h : ∀ i ∈ st.1.orphan, some i.path ∈ st.2) :
    ∀ i ∈ (orphanStage a o st).1.orphan, some i.path ∈ (orphanStage a o st).2 := by
  unfold orphanStage
  split
  · intro i hi
    simp only [List.mem_append] at hi
    rcases hi with hi | hi
    · exact List.mem_append_left _ (h i hi)
    · exact List.mem_append_right _ (List.mem_map.mpr ⟨i, hi, rfl⟩)
  · exact h

theorem precleanStage_inv (a : List String) (pf pd : List AnItem)
    (st : PlanOps × List (Option String))
    (h : ∀ i ∈ st.1.preCleanup, some i.path ∈ st.2) :
    ∀ i ∈ (precleanStage a pf pd st).1.preCleanup,
      some i.path ∈ (precleanStage a pf pd st).2 := by
  unfold precleanStage
  split
  · intro i hi
    rcases List.mem_append.mp hi with hi | hi
    · exact List.mem_append_left _ (h i hi)
    · exact List.mem_append_right _ (List.mem_map.mpr ⟨i, hi, rfl⟩)
  · exact h

theorem reorgStage_preserve (a : List String) (r : List AnItem)
    (st : PlanOps × List (Option String)) :
    (reorgStage a r st).1.duplicate = st.1.duplicate ∧
    (reorgStage a r st).1.orphan = st.1.orphan ∧
    (reorgStage a r st).1.preCleanup = st.1.preCleanup ∧
    (reorgStage a r st).1.permissions = st.1.permissions ∧
    (reorgStage a r st).1.ownership = st.1.ownership ∧
    (reorgStage a r st).1.postCleanup = st.1.postCleanup ∧
    (reorgStage a r st).2 = st.2 := by
  unfold reorgStage; split <;> exact ⟨rfl, rfl, rfl, rfl, rfl, rfl, rfl⟩

theorem permsStage_preserve (a : List String) (pm : List AnItem) (b1 b2 : Bool)
    (st : PlanOps × List (Option String)) :
    (permsStage a pm b1 b2 st).1.duplicate = st.1.duplicate ∧
    (permsStage a pm b1 b2 st).1.orphan = st.1.orphan ∧
    (permsStage a pm b1 b2 st).1.preCleanup = st.1.preCleanup ∧
    (permsStage a pm b1 b2 st).1.reorganize = st.1.reorganize ∧
    (permsStage a pm b1 b2 st).1.ownership = st.1.ownership ∧
    (permsStage a pm b1 b2 st).1.postCleanup = st.1.postCleanup ∧
    (permsStage a pm b1 b2 st).2 = st.2 := by
  unfold permsStage; split <;> exact ⟨rfl, rfl, rfl, rfl, rfl, rfl, rfl⟩

theorem ownStage_preserve (a : List String) (ow : List AnItem) (b1 b2 : Bool)
    (st : PlanOps × List (Option String)) :
    (ownStage a ow b1 b2 st).1.duplicate = st.1.duplicate ∧
    (ownStage a ow b1 b2 st).1.orphan = st.1.orphan ∧
    (ownStage a ow b1 b2 st).1.preCleanup = st.1.preCleanup ∧
    (ownStage a ow b1 b2 st).1.reorganize = st.1.reorganize ∧
    (ownStage a ow b1 b2 st).1.permissions = st.1.permissions ∧
    (ownStage a ow b1 b2 st).1.postCleanup = st.1.postCleanup ∧
    (ownStage a ow b1 b2 st).2 = st.2 := by
  unfold ownStage; split <;> exact ⟨rfl, rfl, rfl, rfl, rfl, rfl, rfl⟩

theorem destructive_reorg_eq (a : List String) (dd df o pf pd : List AnItem)
    (st : PlanOps × List (Option String)) :
    (precleanStage a pf pd (orphanStage a o (dupStage a dd df st))).1.reorganize
      = st.1.reorganize := by
  unfold precleanStage orphanStage dupStage
  split <;> split <;> split <;> rfl

theorem destructive_perms_eq (a : List String) (dd df o pf pd : List AnItem)
    (st : PlanOps × List (Option String)) :
    (precleanStage a pf pd (orphanStage a o (dupStage a dd df st))).1.permissions
      = st.1.permissions := by
  unfold precleanStage orphanStage dupStage
  split <;> split <;> split <;> rfl

theorem destructive_own_eq (a : List String) (dd df o pf pd : List AnItem)
    (st : PlanOps × List (Option String)) :
    (precleanStage a pf pd (orphanStage a o (dupStage a dd df st))).1.ownership
      = st.1.ownership := by
  unfold precleanStage orphanStage dupStage
  split <;> split <;> split <;> rfl

theorem destructive_post_eq (a : List String) (dd df o pf pd : List AnItem)
    (st : PlanOps × List (Option String)) :
    (precleanStage a pf pd (orphanStage a o (dupStage a dd df st))).1.postCleanup
      = st.1.postCleanup := by
  unfold precleanStage orphanStage dupStage
  split <;> split <;> split <;> rfl

theorem reorgStage_mem (a : List String) (r : List AnItem)
    (st : PlanOps × List (Option String)) {i : AnItem}
    (hi : i ∈ (reorgStage a r st).1.reorganize) :
    i ∈ st.1.reorganize ∨ some i.path ∉ st.2 := by
  unfold reorgStage at hi
  split at hi
  · simp only [List.mem_append] at hi
    rcases hi with hi | hi
    · exact Or.inl hi
    · right
      have := List.of_mem_filter hi
      simpa using this
  · exact Or.inl hi

theorem permsStage_mem (a : List String) (pm : List AnItem) (b1 b2 : Bool)
    (st : PlanOps × List (Option String)) {i : AnItem}
    (hi : i ∈ (permsStage a pm b1 b2 st).1.permissions) :
    i ∈ st.1.permissions ∨ some i.path ∉ st.2 := by
  unfold permsStage at hi
  split at hi
  · simp only [List.mem_append] at hi
    rcases hi with hi | hi
    · exact Or.inl hi
    · right
      have := List.of_mem_filter hi
      simpa using this
  · exact Or.inl hi

theorem ownStage_mem (a : List String) (ow : List AnItem) (b1 b2 : Bool)
    (st : PlanOps × List (Option String)) {i : AnItem}
    (hi : i ∈ (ownStage a ow b1 b2 st).1.ownership) :
    i ∈ st.1.ownership ∨ some i.path ∉ st.2 := by
  unfold ownStage at hi
  split at hi
  · simp only [List.mem_append] at hi
    rcases hi with hi | hi
    · exact Or.inl hi
    · right
      have := List.of_mem_filter hi
      simpa using this
  · exact Or.inl hi

/-- C1 counterexample: with the duplicates and orphans actions enabled and a
lone file that is both a duplicate and an orphan, its path appears in BOTH
destructive sequences of the resulting plan — neither block consults
`destructivePaths` before pushing. -/
theorem C1_counterexample :
    some "/r/x/solo.jpg" ∈
      ((buildOperations ["duplicates", "orphans"] [] [soloDupe] [soloDupe]
        [] [] [] [] [] true true true true).1.duplicate.map (·.path)) ∧
    "/r/x/solo.jpg" ∈
      ((buildOperations ["duplicates", "orphans"] [] [soloDupe] [soloDupe]
        [] [] [] [] [] true true true true).1.orphan.map (·.path)) := by
  exact ⟨by decide, by decide⟩

/-- C1 as amended: a path may appear in several destructive sequences (the
destructive blocks push without consulting `destructivePaths`), but every
path appearing in a non-destructive sequence (reorganize, permissions,
ownership) appears in none of the destructive sequences of the plan built
by app.mjs lines 48-162 (whose post-cleanup sequence is empty). -/
theorem C1_arbitration_amended (actions : List String)
    (dupDirs dupFiles orphans precleanFiles precleanDirs reorgs perms owns :
      List AnItem)
    (hfp hdp hou hog : Bool) (p : String)
    (hp : p ∈ (buildOperations actions dupDirs dupFiles orphans precleanFiles
        precleanDirs reorgs perms owns hfp hdp hou hog).1.reorganize.map
          (·.path) ∨
      p ∈ (buildOperations actions dupDirs dupFiles orphans precleanFiles
        precleanDirs reorgs perms owns hfp hdp hou hog).1.permissions.map
          (·.path) ∨
      p ∈ (buildOperations actions dupDirs dupFiles orphans precleanFiles
        precleanDirs reorgs perms owns hfp hdp hou hog).1.ownership.map
          (·.path)) :
    some p ∉ (buildOperations actions dupDirs dupFiles orphans precleanFiles
        precleanDirs reorgs perms owns hfp hdp hou hog).1.duplicate.map
          (·.path) ∧
    p ∉ (buildOperations actions dupDirs dupFiles orphans precleanFiles
        precleanDirs reorgs perms owns hfp hdp hou hog).1.orphan.map
          (·.path) ∧
    p ∉ (buildOperations actions dupDirs dupFiles orphans precleanFiles
        precleanDirs reorgs perms owns hfp hdp hou hog).1.preCleanup.map
          (·.path) ∧
    (buildOperations actions dupDirs dupFiles orphans precleanFiles
      precleanDirs reorgs perms owns hfp hdp hou hog).1.postCleanup = [] := by
  set st0 : PlanOps × List (Option String) := (emptyOps, []) with hst0
  set st1 := dupStage actions dupDirs dupFiles st0 with hst1
  set st2 := orphanStage actions orphans st1 with hst2
  set st3 := precleanStage actions precleanFiles precleanDirs st2 with hst3
  set st4 := reorgStage actions reorgs st3 with hst4
  set st5 := permsStage actions perms hfp hdp st4 with hst5
  set st6 := ownStage actions owns hou hog st5 with hst6
  have hbuild : buildOperations actions dupDirs dupFiles orphans precleanFiles
      precleanDirs reorgs perms owns hfp hdp hou hog = st6 := rfl
  rw [hbuild] at hp ⊢
  have hdup1 : ∀ x ∈ st1.1.duplicate, x.path ∈ st1.2 := by
    rw [hst1]
    refine dupStage_inv _ _ _ st0 ?_
    intro x hx
    rw [hst0] at hx
    simp [emptyOps] at hx
  have hdup3 : ∀ x ∈ st3.1.duplicate, x.path ∈ st3.2 := by
    intro x hx
    rw [hst3, precleanStage_dup_eq, hst2, orphanStage_dup_eq] at hx
    rw [hst3]
    refine precleanStage_snd_mono _ _ _ _ ?_
    rw [hst2]
    exact orphanStage_snd_mono _ _ _ (hdup1 x hx)
  have horph2 : ∀ i ∈ st2.1.orphan, some i.path ∈ st2.2 := by
    rw [hst2]
    refine orphanStage_inv _ _ st1 ?_
    intro i hi
    rw [hst1, dupStage_orphan_eq, hst0] at hi
    simp [emptyOps] at hi
  have horph3 : ∀ i ∈ st3.1.orphan, some i.path ∈ st3.2 := by
    intro i hi
    rw [hst3, precleanStage_orphan_eq] at hi
    rw [hst3]
    exact precleanStage_snd_mono _ _ _ _ (horph2 i hi)
  have hprec3 : ∀ i ∈ st3.1.preCleanup, some i.path ∈ st3.2 := by
    rw [hst3]
    refine precleanStage_inv _ _ _ st2 ?_
    intro i hi
    rw [hst2, orphanStage_preclean_eq, hst1, dupStage_preclean_eq, hst0] at hi
    simp [emptyOps] at hi
  have P4 := reorgStage_preserve actions reorgs st3
  have P5 := permsStage_preserve actions perms hfp hdp st4
  have P6 := ownStage_preserve actions owns hou hog st5
  have hst3def : st3 = precleanStage actions precleanFiles precleanDirs
      (orphanStage actions orphans (dupStage actions dupDirs dupFiles st0)) := by
    rw [hst3, hst2, hst1]
  have hreorg3 : st3.1.reorganize = [] := by
    rw [hst3def, destructive_reorg_eq, hst0]; rfl
  have hperms3 : st3.1.permissions = [] := by
    rw [hst3def, destructive_perms_eq, hst0]; rfl
  have hown3 : st3.1.ownership = [] := by
    rw [hst3def, destructive_own_eq, hst0]; rfl
  have hpost3 : st3.1.postCleanup = [] := by
    rw [hst3def, destructive_post_eq, hst0]; rfl
  have hdup6 : st6.1.duplicate = st3.1.duplicate := by
    rw [hst6]; rw [P6.1, hst5, P5.1, hst4, P4.1]
  have horph6 : st6.1.orphan = st3.1.orphan := by
    rw [hst6]; rw [P6.2.1, hst5, P5.2.1, hst4, P4.2.1]
  have hprec6 : st6.1.preCleanup = st3.1.preCleanup := by
    rw [hst6]; rw [P6.2.2.1, hst5, P5.2.2.1, hst4, P4.2.2.1]
  have hpost6 : st6.1.postCleanup = [] := by
    rw [hst6]; rw [P6.2.2.2.2.2.1, hst5, P5.2.2.2.2.2.1, hst4,
      P4.2.2.2.2.2.1, hpost3]
  have hsnd4 : st4.2 = st3.2 := by rw [hst4]; exact P4.2.2.2.2.2.2
  have hsnd5 : st5.2 = st3.2 := by rw [hst5]; rw [P5.2.2.2.2.2.2, hsnd4]
  have hnot : some p ∉ st3.2 := by
    rcases hp with hp | hp | hp
    · have hre6 : st6.1.reorganize = st4.1.reorganize := by
        rw [hst6]; rw [P6.2.2.2.1, hst5, P5.2.2.2.1]
      rw [hre6] at hp
      obtain ⟨i, hi, hip⟩ := List.mem_map.mp hp
      have := reorgStage_mem actions reorgs st3 (hst4 ▸ hi)
      rcases this with hmem | hnotin
      · rw [hreorg3] at hmem; simp at hmem
      · rw [← hip]; exact hnotin
    · have hpm6 : st6.1.permissions = st5.1.permissions := by
        rw [hst6]; exact P6.2.2.2.2.1
      rw [hpm6] at hp
      obtain ⟨i, hi, hip⟩ := List.mem_map.mp hp
      have := permsStage_mem actions perms hfp hdp st4 (hst5 ▸ hi)
      rcases this with hmem | hnotin
      · rw [hst4, P4.2.2.2.1, hperms3] at hmem; simp at hmem
      · rw [← hip, ← hsnd4]; exact hnotin
    · obtain ⟨i, hi, hip⟩ := List.mem_map.mp hp
      have := ownStage_mem actions owns hou hog st5 (hst6 ▸ hi)
      rcases this with hmem | hnotin
      · rw [hst5, P5.2.2.2.2.1, hst4, P4.2.2.2.2.1, hown3] at hmem
        simp at hmem
      · rw [← hip, ← hsnd5]; exact hnotin
  refine ⟨?_, ?_, ?_, hpost6⟩
  · intro hmem
    rw [hdup6] at hmem
    obtain ⟨x, hx, hxp⟩ := List.mem_map.mp hmem
    exact hnot (hxp ▸ hdup3 x hx)
  · intro hmem
    rw [horph6] at hmem
    obtain ⟨i, hi, hip⟩ := List.mem_map.mp hmem
    exact hnot (hip ▸ horph3 i hi)
  · intro hmem
    rw [hprec6] at hmem
    obtain ⟨i, hi, hip⟩ := List.mem_map.mp hmem
    exact hnot (hip ▸ hprec3 i hi)

theorem foldl_dmin_mem (v : DateEntry) (vs : List DateEntry) :
    vs.foldl (fun a b => if a.date < b.date then a else b) v ∈ v :: vs := by
  induction vs generalizing v with
  | nil => exact List.mem_singleton.mpr rfl
  | cons w vs ih =>
    simp only [List.foldl_cons]
    have h := ih (if v.date < w.date then v else w)
    rcases List.mem_cons.mp h with h | h
    · rw [h]
      split
      · exact List.mem_cons_self _ _
      · exact List.mem_cons_of_mem _ (List.mem_cons_self _ _)
    · exact List.mem_cons_of_mem _ (List.mem_cons_of_mem _ h)

theorem foldl_dmin_le (vs : List DateEntry) : ∀ (v : DateEntry),
    ∀ e ∈ v :: vs,
      (vs.foldl (fun a b => if a.date < b.date then a else b) v).date ≤
        e.date := by
  induction vs with
  | nil =>
    intro v e he
    rw [List.mem_singleton.mp he]
    exact le_refl _
  | cons w vs ih =>
    intro v e he
    simp only [List.foldl_cons]
    have hmin_le_v : (if v.date < w.date then v else w).date ≤ v.date := by
      split <;> omega
    have hmin_le_w : (if v.date < w.date then v else w).date ≤ w.date := by
      split <;> omega
    have hfold := ih (if v.date < w.date then v else w)
    rcases List.mem_cons.mp he with rfl | he2
    · exact le_trans (hfold _ (List.mem_cons_self _ _)) hmin_le_v
    · rcases List.mem_cons.mp he2 with rfl | he3
      · exact le_trans (hfold _ (List.mem_cons_self _ _)) hmin_le_w
      · exact hfold e (List.mem_cons_of_mem _ he3)

theorem earliestOf_eq_none_iff (l : List DateEntry) :
    earliestOf l = none ↔ l = [] := by
  cases l <;> simp [earliestOf]

theorem earliestOf_mem {l : List DateEntry} {r : DateEntry}
    (h : earliestOf l = some r) : r ∈ l := by
  cases l with
  | nil => simp [earliestOf] at h
  | cons v vs =>
    have : vs.foldl (fun a b => if a.date < b.date then a else b) v = r := by
      simpa [earliestOf] using h
    exact this ▸ foldl_dmin_mem v vs

theorem earliestOf_min {l : List DateEntry} {r : DateEntry}
    (h : earliestOf l = some r) : ∀ e ∈ l, r.date ≤ e.date := by
  cases l with
  | nil => simp [earliestOf] at h
  | cons v vs =>
    have heq : vs.foldl (fun a b => if a.date < b.date then a else b) v = r := by
      simpa [earliestOf] using h
    exact heq ▸ foldl_dmin_le vs v

/-- C4: `extractOldestDate` returns `none` exactly when no considered
candidate lies strictly after the threshold, and otherwise an entry of the
considered candidate list that is strictly after the threshold and no later
than any other such candidate; the stat timestamp participates only as a
last resort — when steps 1-2 (EXIF and path/filename scan) produced any
candidate the considered list is exactly those candidates, and only when
they produced none does it become the mtime candidate. -/
theorem C4_extractOldestDate_earliest (file : Entry) (th : Int) :
    (extractOldestDate file th = none ↔
      ∀ e ∈ consideredCandidates file true, ¬ (e.date > th)) ∧
    (∀ r, extractOldestDate file th = some r →
      r ∈ consideredCandidates file true ∧ r.date > th ∧
      ∀ e ∈ consideredCandidates file true, e.date > th → r.date ≤ e.date) ∧
    (dateCandidates12 file true ≠ [] →
      consideredCandidates file true = dateCandidates12 file true) ∧
    (dateCandidates12 file true = [] →
      consideredCandidates file true = mtimeCandidates file) := by
  refine ⟨?_, ?_, ?_, ?_⟩
  · unfold extractOldestDate
    rw [earliestOf_eq_none_iff, List.filter_eq_nil_iff]
    constructor
    · intro h e he hgt
      exact absurd (by simpa using hgt) (by simpa using h e he)
    · intro h e he
      simp only [decide_eq_true_eq]
      exact h e he
  · intro r h
    unfold extractOldestDate at h
    have hmem := earliestOf_mem h
    have hmf := List.mem_filter.mp hmem
    refine ⟨hmf.1, by simpa using hmf.2, ?_⟩
    intro e he hgt
    exact earliestOf_min h e (List.mem_filter.mpr ⟨he, by simpa using hgt⟩)
  · intro h
    unfold consideredCandidates
    rw [if_neg (by simpa [List.isEmpty_iff] using h)]
  · intro h
    unfold consideredCandidates
    rw [if_pos (by simpa [List.isEmpty_iff] using h), h]
    rfl

/-- C4 witness: the characterization applied to a file whose path carries
the date 2001-05-06; the candidate participates and beats the threshold. -/
theorem C4_witness :
    (⟨msOfYMD 2001 5 6, "path"⟩ : DateEntry) ∈
      consideredCandidates file4 true ∧
    msOfYMD 2001 5 6 > defaultDateThreshold := by
  have h := (C4_extractOldestDate_earliest file4 defaultDateThreshold).2.1
    ⟨msOfYMD 2001 5 6, "path"⟩ (by decide)
  exact ⟨h.1, h.2.1⟩

/-- C8: the epoch branch of the date extractor is dead code — the guard
compares the pattern against a freshly allocated regex literal with `===`
(reference equality), which is false for every pattern — so a path carrying
the standalone 10-digit number 1609459200 yields NO path candidates at all
(the 10-digit capture leaves `part2`/`part3` undefined and validation
fails, and the other patterns reject year 1609 and year 4592), no candidate
tagged `path (epoch)` ever exists, and the extractor falls back to the stat
timestamp instead of the claimed epoch date. -/
theorem C8_epoch_candidates_never_produced :
    jsRegexLiteralRefEq = false ∧
    pathDateCandidates true file8.path.toList = [] ∧
    extractOldestDate file8 defaultDateThreshold =
      some ⟨msOfYMD 2010 5 5, "timestamps (mtime)"⟩ ∧
    ((consideredCandidates file8 true).all
      (fun e => e.source != "path (epoch)")) = true := by
  exact ⟨rfl, by decide, by decide, by decide⟩

/-- C5 counterexample to idempotence: the first run extracts only the
mtime 1997-03-15 for /s/1999/a211231/pic.jpg (relativePath /a21) and moves
it to /a21/1997/03/pic__s_19991231.jpg; on the moved scan the renamed file
now contains the digit run 19991231, the second run extracts the path date
1999-12-31 and emits ANOTHER move, so the second run's reorganize list is
not empty even though every first-run move was applied and all other
inputs are unchanged. -/
theorem C5_counterexample :
    (getReorganizeItems [file5] "/{year}/{month}/" defaultDateThreshold
      "/a21").map (fun op => op.move_to) =
      ["/a21/1997/03/pic__s_19991231.jpg"] ∧
    (getReorganizeItems [applyMoveEntry file5
      ((getReorganizeItems [file5] "/{year}/{month}/" defaultDateThreshold
        "/a21").headD ⟨"", "", ⟨0, ""⟩⟩)] "/{year}/{month}/"
      defaultDateThreshold "/a21").map (fun op => op.move_to) =
      ["/a21/1999/12/pic__s_19991231__1997_03.jpg"] := by
  exact ⟨by decide, by decide⟩

/-- C5 as amended: `getReorganizeItems` emits a move for a file only when
the normalized target directory (template substituted with the extracted
date, resolved against `relPath`) differs from the file's normalized
current directory — every emitted operation comes from a non-directory,
non-deleted file with a valid extracted date and carries exactly that
target; but re-running after applying the moves need not yield an empty
list, because the move's renaming can make the second-run date extraction
find a different date. -/
theorem C5_reorganize_amended :
    ∀ (files : List Entry) (ts : String) (th : Int) (rp : String),
      ∀ op ∈ getReorganizeItems files ts th rp,
        ∃ f ∈ files, ∃ od, extractOldestDate f th = some od ∧
          f.isDirectory = false ∧ f.delete = false ∧
          normalizePath (reorgTargetDir ts rp od) ≠ normalizePath f.dir ∧
          op = ⟨f.path, pathJoin (reorgTargetDir ts rp od)
            (reorgTargetName rp f), od⟩ := by
  intro files ts th rp op hop
  obtain ⟨f, hf, hitem⟩ := List.mem_filterMap.mp hop
  refine ⟨f, hf, ?_⟩
  unfold reorgItem at hitem
  rw [Option.bind_eq_some] at hitem
  obtain ⟨od, hod, hbody⟩ := hitem
  refine ⟨od, hod, ?_⟩
  by_cases h1 : (f.isDirectory || f.delete) = true
  · rw [if_pos h1] at hbody
    exact absurd hbody (by simp)
  · rw [if_neg h1] at hbody
    have h2 := Bool.or_eq_false_iff.mp (Bool.eq_false_iff.mpr h1)
    by_cases h3 : normalizePath (reorgTargetDir ts rp od) ≠
        normalizePath f.dir
    · rw [if_pos h3] at hbody
      exact ⟨h2.1, h2.2, h3, (Option.some_inj.mp hbody).symm⟩
    · rw [if_neg h3] at hbody
      exact absurd hbody (by simp)

/-- C5 witness: the amended characterization applied to the first-run
operation of the counterexample scenario. -/
theorem C5_amended_witness :
    ∃ f ∈ [file5], ∃ od,
      extractOldestDate f defaultDateThreshold = some od ∧
      f.isDirectory = false ∧ f.delete = false ∧
      normalizePath (reorgTargetDir "/{year}/{month}/" "/a21" od) ≠
        normalizePath f.dir ∧
      (⟨file5.path, "/a21/1997/03/pic__s_19991231.jpg",
        ⟨msOfYMD 1997 3 15, "timestamps (mtime)"⟩⟩ : ReorgOp) =
        ⟨f.path, pathJoin (reorgTargetDir "/{year}/{month}/" "/a21" od)
          (reorgTargetName "/a21" f), od⟩ := by
  exact C5_reorganize_amended [file5] "/{year}/{month}/" defaultDateThreshold
    "/a21" ⟨file5.path, "/a21/1997/03/pic__s_19991231.jpg",
      ⟨msOfYMD 1997 3 15, "timestamps (mtime)"⟩⟩ (by decide)

/-- C1 witness: the amended exclusivity applied to a concrete plan in which
the file /r/y/a.jpg is reorganized while /r/x/solo.jpg is claimed by the
duplicate analyzer. -/
theorem C1_amended_witness :
    "/r/y/a.jpg" ∉ (buildOperations ["duplicates", "reorganize"] [] [soloDupe]
      [] [] [] [⟨"/r/y/a.jpg", "/r/2001/01/a.jpg", 4⟩] [] [] true true true
      true).1.orphan.map (·.path) := by
  exact (C1_arbitration_amended ["duplicates", "reorganize"] [] [soloDupe]
    [] [] [] [⟨"/r/y/a.jpg", "/r/2001/01/a.jpg", 4⟩] [] [] true true true
    true "/r/y/a.jpg" (Or.inl (by decide))).2.1

end FileMaint
